import Mathlib

/-!
# GoRedis: slave session, snapshot decoder and server hook

A shallow embedding of `goredis_server/slave_session.go`: the `SlaveSession`
object, the `rdbDecoder` callbacks that turn a binary snapshot into synthetic
write commands, and the `Sync` read loop; and of the parts of
`goredis_server/go_redis_server.go` that build the table of replicated
commands, keep the uid and fan a command out to the slaves (`On`).

Conventions of the embedding.

* A Go `[]byte` or `string` is a Lean `String`; a `Command` is the list of its
  arguments, name first.
* Pointers become explicit state passing: a callback takes the decoder and
  returns the decoder after the call.  The decoder holds its `SlaveSession`
  (the `session` pointer of the source), so effects on the session made
  through the decoder are read from `p.session`.
* Calls that leave the process are recorded in logs carried by the session:
  `received` holds the calls of the `DidRecvCommand` callback, `finished`
  the calls of `RdbFinished`, `sent` the commands handed to `WriteCommand`.
  Diagnostic `fmt.Printf` output is not modelled.
* `int`/`int64` counters are `Int`; lengths announced by the snapshot reader
  are `Nat` (the reader decodes them from an unsigned length field).
-/

namespace GoRedis

/-- A Go byte slice or string. -/
abbrev Bytes := String

/-- The argument vector of a command, name first. -/
abbrev Command := List Bytes

/-- `NewCommand(args...)`: the command made of the given arguments. -/
def NewCommand (args : List Bytes) : Command := args

/-- Go `error` values; `Option Error` is a possibly nil error. -/
abbrev Error := String

def SSConnecting : String := "connecting"
def SSDisconnected : String := "disconnected"
def SSRdbRecving : String := "rdbrecving"
def SSCommandRecving : String := "commandrecving"

/-- One call `DidRecvCommand(cmd, count, isrdb)`. -/
structure Received where
  cmd : Command
  count : Int
  isrdb : Bool
deriving DecidableEq, Repr

/-- The `SlaveSession` struct.  `session` is the connection handle, of a type
`σ` owned by the connection library; `sent`, `received` and `finished` log the
calls to `WriteCommand`, `DidRecvCommand` and `RdbFinished`. -/
structure SlaveSession (σ : Type) where
  session : σ
  status : String
  masterHost : String
  totalCount : Int
  sent : List Command
  received : List Received
  finished : List Int

variable {σ : Type}

/-- `NewSlaveSession(sess, masterHost)`. -/
def NewSlaveSession (sess : σ) (masterHost : String) : SlaveSession σ :=
  { session := sess
    status := SSDisconnected
    masterHost := masterHost
    totalCount := 0
    sent := []
    received := []
    finished := [] }

/-- The closure `s.didRecvCommand`: bump `totalCount`, then call
`DidRecvCommand(cmd, s.totalCount, isrdb)`. -/
def SlaveSession.didRecvCommand (s : SlaveSession σ) (cmd : Command) (isrdb : Bool) :
    SlaveSession σ :=
  let s1 := { s with totalCount := s.totalCount + 1 }
  { s1 with received := s1.received ++ [⟨cmd, s1.totalCount, isrdb⟩] }

/-- The call `s.RdbFinished(count)`. -/
def SlaveSession.RdbFinished (s : SlaveSession σ) (count : Int) : SlaveSession σ :=
  { s with finished := s.finished ++ [count] }

def SlaveSession.Status (s : SlaveSession σ) : String := s.status

def SlaveSession.Disconnect (s : SlaveSession σ) : SlaveSession σ × Option Error :=
  ({ s with status := SSDisconnected }, none)

/-- The `rdbDecoder` struct (the embedded `rdb.NopDecoder` has no state). -/
structure rdbDecoder (σ : Type) where
  db : Int
  i : Int
  keyCount : Int
  bufsize : Int
  session : SlaveSession σ
  hashEntry : List Bytes
  setEntry : List Bytes
  listEntry : List Bytes
  zsetEntry : List Bytes

/-- `make([][]byte, 0, cap)`: an empty slice; the capacity only reserves
storage and is not observable through `append` or `len`. -/
def makeSlice (_cap : Int) : List Bytes := []

/-- `newDecoder(s)`; the fields not assigned keep their zero values. -/
def newDecoder (s : SlaveSession σ) : rdbDecoder σ :=
  { db := 0
    i := 0
    keyCount := 0
    bufsize := 200
    session := s
    hashEntry := []
    setEntry := []
    listEntry := []
    zsetEntry := [] }

def rdbDecoder.StartDatabase (p : rdbDecoder σ) (n : Int) : rdbDecoder σ :=
  { p with db := n }

def rdbDecoder.EndDatabase (p : rdbDecoder σ) (_n : Int) : rdbDecoder σ := p

def rdbDecoder.EndRDB (p : rdbDecoder σ) : rdbDecoder σ :=
  { p with session := p.session.RdbFinished p.keyCount }

def rdbDecoder.Set (p : rdbDecoder σ) (key value : Bytes) (_expiry : Int) : rdbDecoder σ :=
  let cmd := NewCommand ["SET", key, value]
  let p := { p with session := p.session.didRecvCommand cmd true }
  { p with keyCount := p.keyCount + 1 }

def rdbDecoder.StartHash (p : rdbDecoder σ) (key : Bytes) (length : Nat) (_expiry : Int) :
    rdbDecoder σ :=
  let p := if (length : Int) < p.bufsize
    then { p with hashEntry := makeSlice (length + 2) }
    else { p with hashEntry := makeSlice p.bufsize }
  let p := { p with hashEntry := p.hashEntry ++ ["HSET"] }
  let p := { p with hashEntry := p.hashEntry ++ [key] }
  { p with keyCount := p.keyCount + 1 }

def rdbDecoder.Hset (p : rdbDecoder σ) (key field value : Bytes) : rdbDecoder σ :=
  let p := { p with hashEntry := p.hashEntry ++ [field] }
  let p := { p with hashEntry := p.hashEntry ++ [value] }
  if (p.hashEntry.length : Int) ≥ p.bufsize then
    let cmd := NewCommand p.hashEntry
    let p := { p with session := p.session.didRecvCommand cmd true }
    let p := { p with hashEntry := makeSlice p.bufsize }
    let p := { p with hashEntry := p.hashEntry ++ ["HSET"] }
    { p with hashEntry := p.hashEntry ++ [key] }
  else p

def rdbDecoder.EndHash (p : rdbDecoder σ) (_key : Bytes) : rdbDecoder σ :=
  if p.hashEntry.length > 2 then
    let cmd := NewCommand p.hashEntry
    { p with session := p.session.didRecvCommand cmd true }
  else p

def rdbDecoder.StartSet (p : rdbDecoder σ) (key : Bytes) (cardinality : Nat) (_expiry : Int) :
    rdbDecoder σ :=
  let p := if (cardinality : Int) < p.bufsize
    then { p with setEntry := makeSlice (cardinality + 2) }
    else { p with setEntry := makeSlice p.bufsize }
  let p := { p with setEntry := p.setEntry ++ ["SADD"] }
  let p := { p with setEntry := p.setEntry ++ [key] }
  { p with keyCount := p.keyCount + 1 }

/-- `Sadd`: the source appends no element (`append(p.setEntry)` has no value
argument), so `member` does not enter the buffer. -/
def rdbDecoder.Sadd (p : rdbDecoder σ) (key _member : Bytes) : rdbDecoder σ :=
  let p := { p with setEntry := p.setEntry ++ [] }
  if (p.setEntry.length : Int) ≥ p.bufsize then
    let cmd := NewCommand p.setEntry
    let p := { p with session := p.session.didRecvCommand cmd true }
    let p := { p with setEntry := makeSlice p.bufsize }
    let p := { p with setEntry := p.setEntry ++ ["SADD"] }
    { p with setEntry := p.setEntry ++ [key] }
  else p

def rdbDecoder.EndSet (p : rdbDecoder σ) (_key : Bytes) : rdbDecoder σ :=
  if p.setEntry.length > 2 then
    let cmd := NewCommand p.setEntry
    { p with session := p.session.didRecvCommand cmd true }
  else p

def rdbDecoder.StartList (p : rdbDecoder σ) (key : Bytes) (length : Nat) (_expiry : Int) :
    rdbDecoder σ :=
  let p := if (length : Int) < p.bufsize
    then { p with listEntry := makeSlice (length + 2) }
    else { p with listEntry := makeSlice p.bufsize }
  let p := { p with listEntry := p.listEntry ++ ["RPUSH"] }
  let p := { p with listEntry := p.listEntry ++ [key] }
  let p := { p with keyCount := p.keyCount + 1 }
  { p with i := 0 }

def rdbDecoder.Rpush (p : rdbDecoder σ) (key value : Bytes) : rdbDecoder σ :=
  let p := { p with listEntry := p.listEntry ++ [value] }
  let p := if (p.listEntry.length : Int) ≥ p.bufsize then
      let cmd := NewCommand p.listEntry
      let p := { p with session := p.session.didRecvCommand cmd true }
      let p := { p with listEntry := makeSlice p.bufsize }
      let p := { p with listEntry := p.listEntry ++ ["RPUSH"] }
      { p with listEntry := p.listEntry ++ [key] }
    else p
  { p with i := p.i + 1 }

def rdbDecoder.EndList (p : rdbDecoder σ) (_key : Bytes) : rdbDecoder σ :=
  if p.listEntry.length > 2 then
    let cmd := NewCommand p.listEntry
    { p with session := p.session.didRecvCommand cmd true }
  else p

/-- The integer part of a rational, rounding toward zero. -/
def truncToInt (q : ℚ) : Int := Int.tdiv q.num q.den

/-- The conversion `int64(score)` of a finite `float64`.  A finite `float64` is a
rational number, and the conversion discards the fraction; outside the signed
64-bit range the language leaves the result to the implementation (the amd64
conversion instruction yields the minimum value). -/
def int64OfFloat64 (score : ℚ) : Int :=
  let t := truncToInt score
  if -(2 : Int) ^ 63 ≤ t ∧ t < (2 : Int) ^ 63 then t else -(2 : Int) ^ 63

/-- `strconv.FormatInt(i, 10)`: the decimal text of `i`, with a leading `-`
when negative. -/
def FormatInt (i : Int) : String :=
  match i with
  | Int.ofNat n => String.mk (Nat.toDigits 10 n)
  | Int.negSucc n => String.mk ('-' :: Nat.toDigits 10 (n + 1))

def rdbDecoder.StartZSet (p : rdbDecoder σ) (key : Bytes) (cardinality : Nat) (_expiry : Int) :
    rdbDecoder σ :=
  let p := if (cardinality : Int) > p.bufsize
    then { p with zsetEntry := makeSlice cardinality }
    else { p with zsetEntry := makeSlice p.bufsize }
  let p := { p with zsetEntry := p.zsetEntry ++ ["ZADD"] }
  let p := { p with zsetEntry := p.zsetEntry ++ [key] }
  let p := { p with keyCount := p.keyCount + 1 }
  { p with i := 0 }

def rdbDecoder.Zadd (p : rdbDecoder σ) (key : Bytes) (score : ℚ) (member : Bytes) :
    rdbDecoder σ :=
  let p := { p with zsetEntry := p.zsetEntry ++ [FormatInt (int64OfFloat64 score)] }
  let p := { p with zsetEntry := p.zsetEntry ++ [member] }
  let p := if (p.zsetEntry.length : Int) ≥ p.bufsize then
      let cmd := NewCommand p.zsetEntry
      let p := { p with session := p.session.didRecvCommand cmd true }
      let p := { p with zsetEntry := makeSlice p.bufsize }
      let p := { p with zsetEntry := p.zsetEntry ++ ["ZADD"] }
      { p with zsetEntry := p.zsetEntry ++ [key] }
    else p
  { p with i := p.i + 1 }

def rdbDecoder.EndZSet (p : rdbDecoder σ) (_key : Bytes) : rdbDecoder σ :=
  if p.zsetEntry.length > 2 then
    let cmd := NewCommand p.zsetEntry
    { p with session := p.session.didRecvCommand cmd true }
  else p

/-- One callback invocation made by the snapshot reader on the decoder. -/
inductive RdbEvent where
  | StartDatabase (n : Int)
  | EndDatabase (n : Int)
  | EndRDB
  | Set (key value : Bytes) (expiry : Int)
  | StartHash (key : Bytes) (length : Nat) (expiry : Int)
  | Hset (key field value : Bytes)
  | EndHash (key : Bytes)
  | StartSet (key : Bytes) (cardinality : Nat) (expiry : Int)
  | Sadd (key member : Bytes)
  | EndSet (key : Bytes)
  | StartList (key : Bytes) (length : Nat) (expiry : Int)
  | Rpush (key value : Bytes)
  | EndList (key : Bytes)
  | StartZSet (key : Bytes) (cardinality : Nat) (expiry : Int)
  | Zadd (key : Bytes) (score : ℚ) (member : Bytes)
  | EndZSet (key : Bytes)

/-- Dispatch of one reader event to the decoder method of the same name. -/
def rdbDecoder.handle (p : rdbDecoder σ) : RdbEvent → rdbDecoder σ
  | .StartDatabase n => p.StartDatabase n
  | .EndDatabase n => p.EndDatabase n
  | .EndRDB => p.EndRDB
  | .Set key value expiry => p.Set key value expiry
  | .StartHash key length expiry => p.StartHash key length expiry
  | .Hset key field value => p.Hset key field value
  | .EndHash key => p.EndHash key
  | .StartSet key cardinality expiry => p.StartSet key cardinality expiry
  | .Sadd key member => p.Sadd key member
  | .EndSet key => p.EndSet key
  | .StartList key length expiry => p.StartList key length expiry
  | .Rpush key value => p.Rpush key value
  | .EndList key => p.EndList key
  | .StartZSet key cardinality expiry => p.StartZSet key cardinality expiry
  | .Zadd key score member => p.Zadd key score member
  | .EndZSet key => p.EndZSet key

/-- The decoder after the reader has made the calls `evs`, in order. -/
def rdbDecoder.run (p : rdbDecoder σ) (evs : List RdbEvent) : rdbDecoder σ :=
  evs.foldl rdbDecoder.handle p

/-- The commands the decoder delivered to its session between state `p` and
the later state `q`: the entries `q` has logged beyond those of `p`. -/
def delivered (p q : rdbDecoder σ) : List Command :=
  (q.session.received.drop p.session.received.length).map Received.cmd

/-- The value held by a reply, as far as `getRedisInfo` distinguishes it. -/
inductive ReplyValue where
  | string (v : String)
  | bytes (v : Bytes)
  | other

/-- A reply read from the connection: its `Value`, and the text `String()`
renders for it. -/
structure Reply where
  Value : ReplyValue
  text : String

/-- The connection library used by the session (package `goredis` and the
snapshot reader `rdb.Decode`), over a connection state `σ`.  Each read returns
the connection after the read, the value read and a possibly nil error.
`Decode` returns the callbacks the reader made on its decoder, in order, and
the error it returned. -/
structure SessionOps (σ : Type) where
  WriteCommand : σ → Command → σ
  ReadReply : σ → σ × Reply × Option Error
  PeekByte : σ → σ × Char × Option Error
  ReadByte : σ → σ × Char × Option Error
  ReadCommand : σ → σ × Command × Option Error
  ReadLineInteger : σ → σ × Int × Option Error
  Decode : σ → σ × List RdbEvent × Option Error

/-- The call `s.session.WriteCommand(cmd)`, recorded in `sent`. -/
def SlaveSession.writeCommand (ops : SessionOps σ) (s : SlaveSession σ) (cmd : Command) :
    SlaveSession σ :=
  { s with session := ops.WriteCommand s.session cmd, sent := s.sent ++ [cmd] }

/-- The search of `strings.Index` from offset `i`: the offset of the first
place where `sub` starts, or `-1`. -/
def indexFrom (sub : List Char) : List Char → Int → Int
  | [], i => if sub.isPrefixOf [] then i else -1
  | c :: cs, i => if sub.isPrefixOf (c :: cs) then i else indexFrom sub cs (i + 1)

/-- `strings.Index(s, substr)`: the index of the first instance of `substr` in
`s`, or `-1` if `substr` is not present in `s`. -/
def stringsIndex (s substr : String) : Int := indexFrom substr.data s.data 0

/-- `getRedisInfo(section)`: returns the session, `info` and `err`. -/
def SlaveSession.getRedisInfo (ops : SessionOps σ) (s : SlaveSession σ) (sect : String) :
    SlaveSession σ × String × Option Error :=
  let cmdinfo := NewCommand ["INFO", sect]
  let s := s.writeCommand ops cmdinfo
  let r := ops.ReadReply s.session
  let s := { s with session := r.1 }
  let reply := r.2.1
  let err := r.2.2
  if err = none then
    match reply.Value with
    | .string v => (s, v, err)
    | .bytes v => (s, v, err)
    | .other => (s, reply.text, err)
  else (s, "", err)

/-- `isSlaveOfGoRedis()`: returns the session, `isGoRedis` and `err`. -/
def SlaveSession.isSlaveOfGoRedis (ops : SessionOps σ) (s : SlaveSession σ) :
    SlaveSession σ × Bool × Option Error :=
  let r := s.getRedisInfo ops "server"
  let s := r.1
  let info := r.2.1
  let err := r.2.2
  if err ≠ none then (s, false, err)
  else (s, decide (stringsIndex info "goredis_version" > 0), err)

/-- How a run of `Sync` stands after a bounded number of loop iterations:
still in the read loop, or returned with the value of `err`. -/
inductive SyncOutcome where
  | running
  | returned (err : Option Error)
deriving DecidableEq, Repr

/-- The `for` loop of `Sync`, run for at most `fuel` iterations from the
session `s` with the local flag `readRdbFinish`. -/
def SlaveSession.syncLoop (ops : SessionOps σ) :
    Nat → SlaveSession σ → Bool → SlaveSession σ × SyncOutcome
  | 0, s, _ => (s, .running)
  | fuel + 1, s, readRdbFinish =>
    let r := ops.PeekByte s.session
    let s := { s with session := r.1 }
    let c := r.2.1
    let err := r.2.2
    if err ≠ none then (s, .returned err)
    else if c = '*' then
      let rc := ops.ReadCommand s.session
      let s := { s with session := rc.1 }
      let e2 := rc.2.2
      if e2 = none then
        SlaveSession.syncLoop ops fuel (s.didRecvCommand rc.2.1 false) readRdbFinish
      else (s, .returned e2)
    else if !readRdbFinish && c = '$' then
      let s := { s with session := (ops.ReadByte s.session).1 }
      let rl := ops.ReadLineInteger s.session
      let s := { s with session := rl.1 }
      let err := rl.2.2
      if err ≠ none then (s, .returned err)
      else
        let rd := ops.Decode s.session
        let dec := newDecoder { s with session := rd.1 }
        let s := (dec.run rd.2.1).session
        let err := rd.2.2
        if err ≠ none then (s, .returned err)
        else SlaveSession.syncLoop ops fuel s true
    else
      let rb := ops.ReadByte s.session
      let s := { s with session := rb.1 }
      let err := rb.2.2
      if err ≠ none then (s, .returned err)
      else SlaveSession.syncLoop ops fuel s readRdbFinish

/-- `Sync(uid)`, with the read loop bounded by `fuel` iterations. -/
def SlaveSession.Sync (ops : SessionOps σ) (fuel : Nat) (s : SlaveSession σ) (uid : String) :
    SlaveSession σ × SyncOutcome :=
  let s := { s with status := SSConnecting }
  let r := s.isSlaveOfGoRedis ops
  let s := r.1
  let isgoredis := r.2.1
  let err := r.2.2
  if err ≠ none then (s, .returned err)
  else
    let s := if isgoredis
      then s.writeCommand ops (NewCommand ["SYNC", "UID", uid])
      else s.writeCommand ops (NewCommand ["SYNC"])
    s.syncLoop ops fuel false

/-- A scripted connection: the replies, peeked bytes and reader results still
to come, each consumed by the read that returns it.  A read with nothing left
fails with `EOF`. -/
structure Script where
  replies : List (Reply × Option Error)
  bytes : List Char
  commands : List (Command × Option Error)
  integers : List (Int × Option Error)
  snapshots : List (List RdbEvent × Option Error)

/-- The connection operations on a scripted connection. -/
def scriptOps : SessionOps Script :=
  { WriteCommand := fun c _ => c
    ReadReply := fun c =>
      match c.replies with
      | [] => (c, ⟨.other, ""⟩, some "EOF")
      | r :: rs => ({ c with replies := rs }, r.1, r.2)
    PeekByte := fun c =>
      match c.bytes with
      | [] => (c, ' ', some "EOF")
      | b :: _ => (c, b, none)
    ReadByte := fun c =>
      match c.bytes with
      | [] => (c, ' ', some "EOF")
      | b :: bs => ({ c with bytes := bs }, b, none)
    ReadCommand := fun c =>
      match c.commands with
      | [] => (c, [], some "EOF")
      | r :: rs => ({ c with commands := rs, bytes := c.bytes.tail }, r.1, r.2)
    ReadLineInteger := fun c =>
      match c.integers with
      | [] => (c, 0, some "EOF")
      | r :: rs => ({ c with integers := rs }, r.1, r.2)
    Decode := fun c =>
      match c.snapshots with
      | [] => (c, [], some "EOF")
      | r :: rs => ({ c with snapshots := rs }, r.1, r.2) }

/-- The commands logged by a session, without their counts and flags. -/
def cmdsOf (s : SlaveSession σ) : List Command := s.received.map Received.cmd

/-- The number of events that start a key: scalar `Set` and the four `Start*`. -/
def countKeys : List RdbEvent → Int
  | [] => 0
  | .Set _ _ _ :: evs => countKeys evs + 1
  | .StartHash _ _ _ :: evs => countKeys evs + 1
  | .StartSet _ _ _ :: evs => countKeys evs + 1
  | .StartList _ _ _ :: evs => countKeys evs + 1
  | .StartZSet _ _ _ :: evs => countKeys evs + 1
  | _ :: evs => countKeys evs

/-- The integer part of a rational as the words say it: the floor of a
non-negative number, the ceiling of a negative one. -/
def integerPart (q : ℚ) : Int := if 0 ≤ q then ⌊q⌋ else ⌈q⌉

/-- The batching invariant of a decoder: the limit is 200, every buffer is
below the limit, and the buffers filled two elements at a time have even
length. -/
def rdbDecoder.Batched (p : rdbDecoder σ) : Prop :=
  p.bufsize = 200 ∧ p.hashEntry.length < 200 ∧ p.hashEntry.length % 2 = 0 ∧
  p.setEntry.length < 200 ∧ p.listEntry.length < 200 ∧
  p.zsetEntry.length < 200 ∧ p.zsetEntry.length % 2 = 0

/-- One batching step seen on the pair (commands delivered so far, buffer):
the items are appended, and a buffer that has reached 200 elements is delivered
and replaced by a fresh one holding the command name and the key. -/
def batchFeed (name key : Bytes) (st : List Command × List Bytes) (items : List Bytes) :
    List Command × List Bytes :=
  if st.2.length + items.length ≥ 200 then (st.1 ++ [st.2 ++ items], [name, key])
  else (st.1, st.2 ++ items)

/-- The calls the snapshot reader makes for one hash: `StartHash`, one `Hset`
per field/value pair, `EndHash`, all with the entry key. -/
def decodeHash (p : rdbDecoder σ) (key : Bytes) (length : Nat) (expiry : Int)
    (fs : List (Bytes × Bytes)) : rdbDecoder σ :=
  ((p.StartHash key length expiry).run (fs.map fun fv => RdbEvent.Hset key fv.1 fv.2)).EndHash key

/-- The calls the snapshot reader makes for one set: `StartSet`, one `Sadd`
per member, `EndSet`. -/
def decodeSet (p : rdbDecoder σ) (key : Bytes) (cardinality : Nat) (expiry : Int)
    (ms : List Bytes) : rdbDecoder σ :=
  ((p.StartSet key cardinality expiry).run (ms.map fun m => RdbEvent.Sadd key m)).EndSet key

/-- The calls the snapshot reader makes for one list: `StartList`, one `Rpush`
per value, `EndList`. -/
def decodeList (p : rdbDecoder σ) (key : Bytes) (length : Nat) (expiry : Int)
    (vs : List Bytes) : rdbDecoder σ :=
  ((p.StartList key length expiry).run (vs.map fun v => RdbEvent.Rpush key v)).EndList key

/-- The calls the snapshot reader makes for one sorted set: `StartZSet`, one
`Zadd` per score/member pair, `EndZSet`. -/
def decodeZSet (p : rdbDecoder σ) (key : Bytes) (cardinality : Nat) (expiry : Int)
    (ms : List (ℚ × Bytes)) : rdbDecoder σ :=
  ((p.StartZSet key cardinality expiry).run
    (ms.map fun sm => RdbEvent.Zadd key sm.1 sm.2)).EndZSet key

/-- A scripted connection whose peer answers `INFO` with `info` and then
offers the bytes `bytes`; it has no command, length line or snapshot to read. -/
def scriptedPeer (info : String) (bytes : List Char) : SlaveSession Script :=
  NewSlaveSession
    { replies := [(⟨.string info, info⟩, none)]
      bytes := bytes
      commands := []
      integers := []
      snapshots := [] } "master"

/-- A scripted connection whose peer answers `INFO` with `info` and then sends
the given bytes, command frames, length lines and snapshots. -/
def scriptedStream (info : String) (bytes : List Char) (commands : List (Command × Option Error))
    (integers : List (Int × Option Error)) (snapshots : List (List RdbEvent × Option Error)) :
    SlaveSession Script :=
  NewSlaveSession
    { replies := [(⟨.string info, info⟩, none)]
      bytes := bytes
      commands := commands
      integers := integers
      snapshots := snapshots } "master"

/-- The session after the successive calls `Sync(uid)` listed in `calls`, each
with its own bound on the read loop. -/
def SlaveSession.syncs (ops : SessionOps σ) (s : SlaveSession σ) (calls : List (Nat × String)) :
    SlaveSession σ :=
  calls.foldl (fun s c => (s.Sync ops c.1 c.2).1) s

/-- The running count is in step with the log of `DidRecvCommand` calls:
`totalCount` is the number of calls made, and the k-th call carried count k. -/
def SlaveSession.Counted (s : SlaveSession σ) : Prop :=
  s.totalCount = s.received.length ∧
  s.received.map Received.count = (List.range s.received.length).map (fun (i : Nat) => (i : Int) + 1)

/-- The capacity given to `make` in `StartHash`. -/
def rdbDecoder.StartHash_cap (p : rdbDecoder σ) (length : Nat) : Int :=
  if (length : Int) < p.bufsize then length + 2 else p.bufsize

/-- The capacity given to `make` in `StartSet`. -/
def rdbDecoder.StartSet_cap (p : rdbDecoder σ) (cardinality : Nat) : Int :=
  if (cardinality : Int) < p.bufsize then cardinality + 2 else p.bufsize

/-- The capacity given to `make` in `StartList`. -/
def rdbDecoder.StartList_cap (p : rdbDecoder σ) (length : Nat) : Int :=
  if (length : Int) < p.bufsize then length + 2 else p.bufsize

/-- The capacity given to `make` in `StartZSet`. -/
def rdbDecoder.StartZSet_cap (p : rdbDecoder σ) (cardinality : Nat) : Int :=
  if (cardinality : Int) > p.bufsize then cardinality else p.bufsize

/-- A connection that keeps, next to the state of `ops`, the commands written
to it, in order; the reads act on the state of `ops` alone. -/
def recordWrites (ops : SessionOps σ) : SessionOps (σ × List Command) :=
  { WriteCommand := fun c cmd => (ops.WriteCommand c.1 cmd, c.2 ++ [cmd])
    ReadReply := fun c => (((ops.ReadReply c.1).1, c.2), (ops.ReadReply c.1).2)
    PeekByte := fun c => (((ops.PeekByte c.1).1, c.2), (ops.PeekByte c.1).2)
    ReadByte := fun c => (((ops.ReadByte c.1).1, c.2), (ops.ReadByte c.1).2)
    ReadCommand := fun c => (((ops.ReadCommand c.1).1, c.2), (ops.ReadCommand c.1).2)
    ReadLineInteger := fun c =>
      (((ops.ReadLineInteger c.1).1, c.2), (ops.ReadLineInteger c.1).2)
    Decode := fun c => (((ops.Decode c.1).1, c.2), (ops.Decode c.1).2) }

/-! ## The server (`goredis_server/go_redis_server.go`) -/

/-- The table `needSyncCmds`. -/
def needSyncCmds : List String :=
  ["SET", "INCR", "DECR", "INCRBY", "DECRBY", "MSET",
   "HDEL", "HSET", "HMSET", "HINCRBY",
   "LPOP", "LPUSH", "LREM", "RPOP", "RPUSH",
   "SADD", "SREM",
   "ZADD", "ZINCRBY", "ZREM",
   "DEL"]

/-- The Go assignment `m[k] = v` on a `map[string]bool` kept as the list of its
bindings. -/
def mapSet (m : List (String × Bool)) (k : String) (v : Bool) : List (String × Bool) :=
  (k, v) :: m.filter (fun kv => kv.1 ≠ k)

/-- The `ok` of the Go lookup `_, ok := m[k]`. -/
def mapHas (m : List (String × Bool)) (k : String) : Bool :=
  m.any (fun kv => kv.1 == k)

/-- Modelled from the spec: the counter table of package `monitor`, which is
not among the sources.  `Get(name)` is the counter kept under `name`, zero
until first used, and `Incr(n)` adds `n` to it. -/
abbrev Counters := String → Int

/-- `monitor.NewCounters()`. -/
def NewCounters : Counters := fun _ => 0

/-- `c.Get(name).Incr(n)`. -/
def countersIncr (c : Counters) (name : String) (n : Int) : Counters :=
  fun k => if k = name then c k + n else c k

/-- Modelled from the spec: the Entry variant of §3, a tagged value over
string, hash, list, set and sorted set (package `storage` is not among the
sources). -/
inductive Entry where
  | string (v : String)
  | hash (fields : List (String × String))
  | list (values : List String)
  | set (members : List String)
  | sortedSet (members : List (String × Int))
deriving DecidableEq

/-- Modelled from the spec: the storage engine of §4.5, `get(key) -> Entry
option` and `set(key, Entry)`, where a `get` after a `set` of the same key
returns the entry set. -/
abbrev DataSource := String → Option Entry

/-- `datasource.Get(key)`; `none` is the nil entry. -/
def DataSource.Get (ds : DataSource) (key : String) : Option Entry := ds key

/-- `datasource.Set(key, entry)`. -/
def DataSource.Set (ds : DataSource) (key : String) (entry : Entry) : DataSource :=
  fun k => if k = key then some entry else ds k

/-- Modelled from the spec: `cmd.Name()`, the first element of the command
(package `goredis` is not among the sources). -/
def Command.Name (cmd : Command) : String := cmd.headD ""

/-- The `GoRedisServer` struct, as far as `NewGoRedisServer`, `UID` and `On` use
it.  `τ` is the type of the slave sessions held in `slavelist`.  The fields
`asyncSent`, `uuidCalls` and `stored` log the calls of `AsyncSendCommand`, of
`uuid.UUID` and of `datasource.Set`.  `datasource` is `none` until `Init` has
opened it. -/
structure GoRedisServer (τ : Type) where
  directory : String
  datasource : Option DataSource
  cmdCounters : Counters
  syncCounters : Counters
  uid : String
  slavelist : List τ
  needSyncCmdTable : List (String × Bool)
  asyncSent : List (τ × Command)
  uuidCalls : Nat
  stored : List (String × Entry)

variable {τ : Type}

/-- `NewGoRedisServer(directory)`; `up` is `strings.ToUpper`. -/
def NewGoRedisServer (up : String → String) (directory : String) : GoRedisServer τ :=
  let server : GoRedisServer τ :=
    { directory := directory
      datasource := none
      cmdCounters := NewCounters
      syncCounters := NewCounters
      uid := ""
      slavelist := []
      needSyncCmdTable := []
      asyncSent := []
      uuidCalls := 0
      stored := [] }
  needSyncCmds.foldl
    (fun server cmd =>
      { server with needSyncCmdTable := mapSet server.needSyncCmdTable (up cmd) true })
    server

/-- Modelled from the spec: `AsyncSendCommand(cmd)` of the master-side slave
session `e`, which puts the command on the outbound queue of that session and
returns; the call is recorded in `asyncSent`. -/
def GoRedisServer.AsyncSendCommand (server : GoRedisServer τ) (e : τ) (cmd : Command) :
    GoRedisServer τ :=
  { server with asyncSent := server.asyncSent ++ [(e, cmd)] }

/-- `On(session, cmd)`: the body of the goroutine it starts, run to its end
(the `session` argument is not used).  `up` is `strings.ToUpper`. -/
def GoRedisServer.On (up : String → String) (server : GoRedisServer τ) (cmd : Command) :
    GoRedisServer τ :=
  let cmdName := up (Command.Name cmd)
  let server := { server with cmdCounters := countersIncr server.cmdCounters cmdName 1 }
  let server := { server with cmdCounters := countersIncr server.cmdCounters "TOTAL" 1 }
  if mapHas server.needSyncCmdTable cmdName then
    server.slavelist.foldl (fun server e => server.AsyncSendCommand e cmd) server
  else server

/-- The server after `On` has run for each command of `cmds`, in order. -/
def GoRedisServer.onAll (up : String → String) (server : GoRedisServer τ)
    (cmds : List Command) : GoRedisServer τ :=
  cmds.foldl (fun server cmd => server.On up cmd) server

/-- `UID()`: returns the server and the uid, or `none` where the source
panics (nil datasource, or an entry under the key that is not a string entry).
`uuid k n` is the result of the k-th call of `uuid.UUID(n)`. -/
def GoRedisServer.UID (uuid : Nat → Nat → String) (server : GoRedisServer τ) :
    Option (GoRedisServer τ × String) :=
  if server.uid.length = 0 then
    let uidkey := "__goredis:uid"
    match server.datasource with
    | none => none
    | some ds =>
      match ds.Get uidkey with
      | none =>
        let server := { server with uid := uuid server.uuidCalls 8
                                    uuidCalls := server.uuidCalls + 1 }
        let entry := Entry.string server.uid
        let server := { server with datasource := some (ds.Set uidkey entry)
                                    stored := server.stored ++ [(uidkey, entry)] }
        some (server, server.uid)
      | some (.string v) =>
        let server := { server with uid := v }
        some (server, server.uid)
      | some _ => none
  else some (server, server.uid)

/-- Modelled from the spec: the Reply variant of §3 that a command handler
returns (Status, Error, Integer, Bulk, MultiBulk). -/
inductive HandlerReply where
  | Status (s : String)
  | Error (msg : String)
  | Integer (n : Int)
  | Bulk (b : Option Bytes)
  | MultiBulk (items : List HandlerReply)

/-- `WrongKindError`. -/
def WrongKindError : Error := "Wrong kind opration"

/-- `ErrorReply(err)`. -/
def ErrorReply (err : Error) : HandlerReply := .Error err

/-- `WrongKindReply`. -/
def WrongKindReply : HandlerReply := ErrorReply WrongKindError

/-- Modelled from the spec: the dispatcher of §4.1 (package `goredis`, which
calls the handlers and the hook, is not among the sources).  It executes the
handler of the command, `execute(command) -> Reply`.  A handler-level error is
returned as an Error reply to the caller, is not fanned out and leaves the
local state untouched; a command that was accepted is followed by the
post-execution hook `On(session, cmd)`, which is handed the session and the
command, as its signature in the source says. -/
def GoRedisServer.dispatch (up : String → String)
    (handler : Option DataSource → Command → Option DataSource × HandlerReply)
    (server : GoRedisServer τ) (cmd : Command) : GoRedisServer τ × HandlerReply :=
  match (handler server.datasource cmd).2 with
  | .Error msg => (server, .Error msg)
  | reply =>
    (({ server with datasource := (handler server.datasource cmd).1 }).On up cmd, reply)

/-- A handler for `INCR` on a datasource: a wrong-kind error when the key holds
an entry that is not a string, with the datasource left as it was.  Used to
exercise the dispatcher. -/
def incrOnWrongKind (ds : Option DataSource) (cmd : Command) : Option DataSource × HandlerReply :=
  match ds, cmd with
  | some d, [_, key] =>
    match d.Get key with
    | some (.string _) => (ds, .Status "OK")
    | some _ => (ds, WrongKindReply)
    | none => (ds, .Status "OK")
  | _, _ => (ds, .Error "bad request")

/-- A datasource in which `counter` holds a list. -/
def listAtCounter : DataSource :=
  fun k => if k = "counter" then some (.list ["x"]) else none

/-- Upper-casing of the ASCII letters, the effect of `strings.ToUpper` on ASCII
text. -/
def asciiUpper (s : String) : String := String.mk (s.data.map Char.toUpper)

end GoRedis

namespace GoRedis

variable {σ : Type} {τ : Type}

/-! ## Effects of the single callbacks -/

theorem didRecvCommand_received (s : SlaveSession σ) (cmd : Command) (b : Bool) :
    (s.didRecvCommand cmd b).received = s.received ++ [⟨cmd, s.totalCount + 1, b⟩] := rfl

theorem Hset_eq (p : rdbDecoder σ) (key field value : Bytes) :
    p.Hset key field value =
      if (p.hashEntry.length : Int) + 2 ≥ p.bufsize then
        { p with session := p.session.didRecvCommand (p.hashEntry ++ [field, value]) true
                 hashEntry := ["HSET", key] }
      else { p with hashEntry := p.hashEntry ++ [field, value] } := by
  simp only [rdbDecoder.Hset, makeSlice, NewCommand, List.append_assoc, List.length_append,
    List.length_cons, List.length_nil, List.nil_append, List.cons_append, Nat.cast_add,
    Nat.cast_one, Nat.cast_ofNat, zero_add, Nat.cast_zero]
  have h : (p.hashEntry.length : Int) + (1 + 1) = (p.hashEntry.length : Int) + 2 := by ring
  rw [h]

theorem Rpush_eq (p : rdbDecoder σ) (key value : Bytes) :
    p.Rpush key value =
      if (p.listEntry.length : Int) + 1 ≥ p.bufsize then
        { p with session := p.session.didRecvCommand (p.listEntry ++ [value]) true
                 listEntry := ["RPUSH", key]
                 i := p.i + 1 }
      else { p with listEntry := p.listEntry ++ [value], i := p.i + 1 } := by
  simp only [rdbDecoder.Rpush, makeSlice, NewCommand, List.length_append,
    List.length_cons, List.length_nil, List.nil_append, List.cons_append, Nat.cast_add,
    Nat.cast_one, zero_add]
  split_ifs <;> rfl

theorem Zadd_eq (p : rdbDecoder σ) (key : Bytes) (score : ℚ) (member : Bytes) :
    p.Zadd key score member =
      if (p.zsetEntry.length : Int) + 2 ≥ p.bufsize then
        { p with session := p.session.didRecvCommand
                   (p.zsetEntry ++ [FormatInt (int64OfFloat64 score), member]) true
                 zsetEntry := ["ZADD", key]
                 i := p.i + 1 }
      else { p with zsetEntry := p.zsetEntry ++ [FormatInt (int64OfFloat64 score), member]
                    i := p.i + 1 } := by
  simp only [rdbDecoder.Zadd, makeSlice, NewCommand, List.append_assoc, List.length_append,
    List.length_cons, List.length_nil, List.nil_append, List.cons_append, Nat.cast_add,
    Nat.cast_one, zero_add]
  have h : (p.zsetEntry.length : Int) + (1 + 1) = (p.zsetEntry.length : Int) + 2 := by ring
  rw [h]
  split_ifs <;> rfl

theorem Sadd_eq (p : rdbDecoder σ) (key member : Bytes) :
    p.Sadd key member =
      if (p.setEntry.length : Int) ≥ p.bufsize then
        { p with session := p.session.didRecvCommand p.setEntry true
                 setEntry := ["SADD", key] }
      else p := by
  simp only [rdbDecoder.Sadd, makeSlice, NewCommand, List.append_nil, List.nil_append,
    List.cons_append]

theorem StartHash_eq (p : rdbDecoder σ) (key : Bytes) (length : Nat) (expiry : Int) :
    p.StartHash key length expiry =
      { p with hashEntry := ["HSET", key], keyCount := p.keyCount + 1 } := by
  simp only [rdbDecoder.StartHash, makeSlice]
  split_ifs <;> rfl

theorem StartSet_eq (p : rdbDecoder σ) (key : Bytes) (cardinality : Nat) (expiry : Int) :
    p.StartSet key cardinality expiry =
      { p with setEntry := ["SADD", key], keyCount := p.keyCount + 1 } := by
  simp only [rdbDecoder.StartSet, makeSlice]
  split_ifs <;> rfl

theorem StartList_eq (p : rdbDecoder σ) (key : Bytes) (length : Nat) (expiry : Int) :
    p.StartList key length expiry =
      { p with listEntry := ["RPUSH", key], keyCount := p.keyCount + 1, i := 0 } := by
  simp only [rdbDecoder.StartList, makeSlice]
  split_ifs <;> rfl

theorem StartZSet_eq (p : rdbDecoder σ) (key : Bytes) (cardinality : Nat) (expiry : Int) :
    p.StartZSet key cardinality expiry =
      { p with zsetEntry := ["ZADD", key], keyCount := p.keyCount + 1, i := 0 } := by
  simp only [rdbDecoder.StartZSet, makeSlice]
  split_ifs <;> rfl

theorem run_nil (p : rdbDecoder σ) : p.run [] = p := rfl

theorem run_cons (p : rdbDecoder σ) (ev : RdbEvent) (evs : List RdbEvent) :
    p.run (ev :: evs) = (p.handle ev).run evs := rfl

theorem run_append (p : rdbDecoder σ) (evs evs2 : List RdbEvent) :
    p.run (evs ++ evs2) = (p.run evs).run evs2 := by
  simp [rdbDecoder.run, List.foldl_append]

/-- Every callback leaves `keyCount` alone except scalar `Set` and the four
`Start*`, which add one. -/
theorem handle_keyCount (p : rdbDecoder σ) (ev : RdbEvent) :
    (p.handle ev).keyCount = p.keyCount + countKeys [ev] := by
  cases ev <;>
    simp only [rdbDecoder.handle, countKeys, StartHash_eq, StartSet_eq, StartList_eq,
      StartZSet_eq, Hset_eq, Sadd_eq, Rpush_eq, Zadd_eq, rdbDecoder.EndHash,
      rdbDecoder.EndSet, rdbDecoder.EndList, rdbDecoder.EndZSet, rdbDecoder.Set,
      rdbDecoder.EndRDB, rdbDecoder.StartDatabase, rdbDecoder.EndDatabase, zero_add, add_zero] <;>
    first
      | rfl
      | (split_ifs <;> rfl)

theorem countKeys_cons (ev : RdbEvent) (evs : List RdbEvent) :
    countKeys (ev :: evs) = countKeys [ev] + countKeys evs := by
  cases ev <;> simp [countKeys] <;> ring

theorem run_keyCount (evs : List RdbEvent) :
    ∀ p : rdbDecoder σ, (p.run evs).keyCount = p.keyCount + countKeys evs := by
  induction evs with
  | nil => intro p; simp [run_nil, countKeys]
  | cons ev evs ih =>
    intro p
    rw [run_cons, ih, handle_keyCount, countKeys_cons ev evs]
    ring

/-! ## Batching -/

theorem cmdsOf_didRecvCommand (s : SlaveSession σ) (cmd : Command) (b : Bool) :
    cmdsOf (s.didRecvCommand cmd b) = cmdsOf s ++ [cmd] := by
  simp [cmdsOf, didRecvCommand_received]

theorem delivered_of_cmdsOf (p q : rdbDecoder σ) (cmds : List Command)
    (h : cmdsOf q.session = cmdsOf p.session ++ cmds) : delivered p q = cmds := by
  unfold delivered
  rw [List.map_drop]
  have h2 : List.map Received.cmd q.session.received = cmdsOf p.session ++ cmds := h
  rw [h2]
  exact List.drop_left' (by simp [cmdsOf])

/-- What a run of batching steps delivers, from a buffer holding the name, the
key and a payload `pay`, when the items come in groups of `k` elements. -/
theorem batchFeed_foldl (name key : Bytes) (k : Nat) (hk198 : k ∣ 198)
    (gs : List (List Bytes)) :
    ∀ (cs : List Command) (pay : List Bytes), (∀ g ∈ gs, g.length = k) →
      pay.length < 198 → k ∣ 198 - pay.length →
      ∃ cmds pay2,
        gs.foldl (batchFeed name key) (cs, name :: key :: pay)
          = (cs ++ cmds, name :: key :: pay2) ∧
        pay2.length < 198 ∧ k ∣ 198 - pay2.length ∧
        (∀ c ∈ cmds, c.length = 200 ∧ c.take 2 = [name, key]) ∧
        cmds.flatMap (List.drop 2) ++ pay2 = pay ++ gs.flatten := by
  induction gs with
  | nil =>
    intro cs pay _ h1 h2
    exact ⟨[], pay, by simp, h1, h2, by simp, by simp⟩
  | cons g gs ih =>
    intro cs pay hg h1 h2
    have hgk : g.length = k := hg g (List.mem_cons_self _ _)
    have hgs : ∀ g2 ∈ gs, g2.length = k := fun g2 h => hg g2 (List.mem_cons_of_mem _ h)
    have hle : k ≤ 198 - pay.length := Nat.le_of_dvd (by omega) h2
    by_cases hflush : pay.length + k = 198
    · obtain ⟨cmds, pay2, e, a1, a2, a3, a4⟩ :=
        ih (cs ++ [name :: key :: (pay ++ g)]) [] hgs (by simp) (by simpa using hk198)
      refine ⟨(name :: key :: (pay ++ g)) :: cmds, pay2, ?_, a1, a2, ?_, ?_⟩
      · simp only [List.foldl_cons, batchFeed, List.length_cons, List.length_append, hgk]
        rw [if_pos (by omega)]
        simpa using e
      · intro c hc
        rcases List.mem_cons.mp hc with rfl | hc
        · simp [hgk]; omega
        · exact a3 c hc
      · simp only [List.flatMap_cons, List.drop_succ_cons, List.drop_zero, List.flatten_cons]
        simp only [List.nil_append] at a4
        rw [List.append_assoc, a4, List.append_assoc]
    · obtain ⟨cmds, pay2, e, a1, a2, a3, a4⟩ :=
        ih cs (pay ++ g) hgs (by simp [hgk]; omega) (by
          have : 198 - (pay ++ g).length = 198 - pay.length - k := by simp [hgk]; omega
          rw [this]
          exact Nat.dvd_sub' h2 (dvd_refl k))
      refine ⟨cmds, pay2, ?_, a1, a2, a3, ?_⟩
      · simp only [List.foldl_cons, batchFeed, List.length_cons, List.length_append, hgk]
        rw [if_neg (by omega)]
        simpa using e
      · rw [a4]; simp

/-- The commands of one composite entry: the full batches `cmds`, then the
remainder `pay2` when there is one. -/
theorem batch_tail (name key : Bytes) (cmds : List Command) (pay2 : List Bytes)
    (h1 : pay2.length < 198) (h3 : ∀ c ∈ cmds, c.length = 200 ∧ c.take 2 = [name, key]) :
    (∀ c ∈ cmds ++ (if 0 < pay2.length then [name :: key :: pay2] else []),
        c.take 2 = [name, key] ∧ c.length ≤ 200) ∧
    (cmds ++ (if 0 < pay2.length then [name :: key :: pay2] else [])).flatMap (List.drop 2)
      = cmds.flatMap (List.drop 2) ++ pay2 := by
  constructor
  · intro c hc
    rcases List.mem_append.mp hc with hc | hc
    · exact ⟨(h3 c hc).2, le_of_eq (h3 c hc).1⟩
    · split_ifs at hc with hp
      · rw [List.mem_singleton] at hc
        subst hc
        simp only [List.length_cons]
        exact ⟨by simp, by omega⟩
      · simp at hc
  · split_ifs with hp
    · simp
    · have : pay2 = [] := List.length_eq_zero.mp (by omega)
      simp [this]

theorem Hset_run (key : Bytes) (fs : List (Bytes × Bytes)) :
    ∀ p : rdbDecoder σ, p.bufsize = 200 →
      (cmdsOf (p.run (fs.map fun fv => RdbEvent.Hset key fv.1 fv.2)).session,
        (p.run (fs.map fun fv => RdbEvent.Hset key fv.1 fv.2)).hashEntry)
        = (fs.map fun fv => [fv.1, fv.2]).foldl (batchFeed "HSET" key)
            (cmdsOf p.session, p.hashEntry) := by
  induction fs with
  | nil => intro p _; rfl
  | cons fv fs ih =>
    intro p hp
    simp only [List.map_cons, run_cons, List.foldl_cons, rdbDecoder.handle]
    have hstep : (cmdsOf (p.Hset key fv.1 fv.2).session, (p.Hset key fv.1 fv.2).hashEntry)
        = batchFeed "HSET" key (cmdsOf p.session, p.hashEntry) [fv.1, fv.2] ∧
        (p.Hset key fv.1 fv.2).bufsize = 200 := by
      rw [Hset_eq, hp]
      simp only [batchFeed, List.length_cons, List.length_nil]
      by_cases h : p.hashEntry.length + 2 ≥ 200
      · rw [if_pos (by omega), if_pos (by omega)]
        exact ⟨by simp [cmdsOf_didRecvCommand], rfl⟩
      · rw [if_neg (by omega), if_neg (by omega)]
        exact ⟨rfl, rfl⟩
    rw [ih _ hstep.2, hstep.1]

theorem Rpush_run (key : Bytes) (vs : List Bytes) :
    ∀ p : rdbDecoder σ, p.bufsize = 200 →
      (cmdsOf (p.run (vs.map fun v => RdbEvent.Rpush key v)).session,
        (p.run (vs.map fun v => RdbEvent.Rpush key v)).listEntry)
        = (vs.map fun v => [v]).foldl (batchFeed "RPUSH" key)
            (cmdsOf p.session, p.listEntry) := by
  induction vs with
  | nil => intro p _; rfl
  | cons v vs ih =>
    intro p hp
    simp only [List.map_cons, run_cons, List.foldl_cons, rdbDecoder.handle]
    have hstep : (cmdsOf (p.Rpush key v).session, (p.Rpush key v).listEntry)
        = batchFeed "RPUSH" key (cmdsOf p.session, p.listEntry) [v] ∧
        (p.Rpush key v).bufsize = 200 := by
      rw [Rpush_eq, hp]
      simp only [batchFeed, List.length_cons, List.length_nil]
      by_cases h : p.listEntry.length + 1 ≥ 200
      · rw [if_pos (by omega), if_pos (by omega)]
        exact ⟨by simp [cmdsOf_didRecvCommand], rfl⟩
      · rw [if_neg (by omega), if_neg (by omega)]
        exact ⟨rfl, rfl⟩
    rw [ih _ hstep.2, hstep.1]

theorem Zadd_run (key : Bytes) (ms : List (ℚ × Bytes)) :
    ∀ p : rdbDecoder σ, p.bufsize = 200 →
      (cmdsOf (p.run (ms.map fun sm => RdbEvent.Zadd key sm.1 sm.2)).session,
        (p.run (ms.map fun sm => RdbEvent.Zadd key sm.1 sm.2)).zsetEntry)
        = (ms.map fun sm => [FormatInt (int64OfFloat64 sm.1), sm.2]).foldl
            (batchFeed "ZADD" key) (cmdsOf p.session, p.zsetEntry) := by
  induction ms with
  | nil => intro p _; rfl
  | cons sm ms ih =>
    intro p hp
    simp only [List.map_cons, run_cons, List.foldl_cons, rdbDecoder.handle]
    have hstep : (cmdsOf (p.Zadd key sm.1 sm.2).session, (p.Zadd key sm.1 sm.2).zsetEntry)
        = batchFeed "ZADD" key (cmdsOf p.session, p.zsetEntry)
            [FormatInt (int64OfFloat64 sm.1), sm.2] ∧
        (p.Zadd key sm.1 sm.2).bufsize = 200 := by
      rw [Zadd_eq, hp]
      simp only [batchFeed, List.length_cons, List.length_nil]
      by_cases h : p.zsetEntry.length + 2 ≥ 200
      · rw [if_pos (by omega), if_pos (by omega)]
        exact ⟨by simp [cmdsOf_didRecvCommand], rfl⟩
      · rw [if_neg (by omega), if_neg (by omega)]
        exact ⟨rfl, rfl⟩
    rw [ih _ hstep.2, hstep.1]

/-- The commands of one hash entry: full batches of 200 elements, then the
remainder. -/
theorem hash_delivered (p : rdbDecoder σ) (hp : p.bufsize = 200) (key : Bytes) (length : Nat)
    (expiry : Int) (fs : List (Bytes × Bytes)) :
    ∃ cmds pay2,
      delivered p (((p.StartHash key length expiry).run
          (fs.map fun fv => RdbEvent.Hset key fv.1 fv.2)).EndHash key)
        = cmds ++ (if 0 < pay2.length then ["HSET" :: key :: pay2] else []) ∧
      pay2.length < 198 ∧ (∀ c ∈ cmds, c.length = 200 ∧ c.take 2 = ["HSET", key]) ∧
      cmds.flatMap (List.drop 2) ++ pay2 = fs.flatMap (fun fv => [fv.1, fv.2]) := by
  obtain ⟨cmds, pay2, e, a1, _, a3, a4⟩ :=
    batchFeed_foldl "HSET" key 2 (by norm_num) (fs.map fun fv => [fv.1, fv.2])
      (cmdsOf p.session) []
      (by intro g hg; obtain ⟨fv, _, rfl⟩ := List.mem_map.mp hg; rfl) (by simp) (by norm_num)
  have hrun := Hset_run key fs (p.StartHash key length expiry) (by rw [StartHash_eq]; exact hp)
  rw [show cmdsOf (p.StartHash key length expiry).session = cmdsOf p.session by
        rw [StartHash_eq],
      show (p.StartHash key length expiry).hashEntry = ["HSET", key] by rw [StartHash_eq],
      e] at hrun
  obtain ⟨h1, h2⟩ := Prod.mk.inj hrun
  refine ⟨cmds, pay2, ?_, a1, a3, by simpa [List.flatMap] using a4⟩
  apply delivered_of_cmdsOf
  unfold rdbDecoder.EndHash
  rw [h2]
  simp only [List.length_cons, NewCommand]
  by_cases h0 : 0 < pay2.length
  · rw [if_pos (by omega), if_pos h0]
    simp only [cmdsOf_didRecvCommand, h1, h2, List.append_assoc]
  · rw [if_neg (by omega), if_neg h0, h1]
    simp

theorem flatten_singletons (vs : List Bytes) : (vs.map fun v => [v]).flatten = vs := by
  induction vs with
  | nil => rfl
  | cons v vs ih => simp [ih]

/-- The commands of one list entry: full batches of 200 elements, then the
remainder. -/
theorem list_delivered (p : rdbDecoder σ) (hp : p.bufsize = 200) (key : Bytes) (length : Nat)
    (expiry : Int) (vs : List Bytes) :
    ∃ cmds pay2,
      delivered p (((p.StartList key length expiry).run
          (vs.map fun v => RdbEvent.Rpush key v)).EndList key)
        = cmds ++ (if 0 < pay2.length then ["RPUSH" :: key :: pay2] else []) ∧
      pay2.length < 198 ∧ (∀ c ∈ cmds, c.length = 200 ∧ c.take 2 = ["RPUSH", key]) ∧
      cmds.flatMap (List.drop 2) ++ pay2 = vs := by
  obtain ⟨cmds, pay2, e, a1, _, a3, a4⟩ :=
    batchFeed_foldl "RPUSH" key 1 (by norm_num) (vs.map fun v => [v])
      (cmdsOf p.session) []
      (by intro g hg; obtain ⟨v, _, rfl⟩ := List.mem_map.mp hg; rfl) (by simp) (by norm_num)
  have hrun := Rpush_run key vs (p.StartList key length expiry) (by rw [StartList_eq]; exact hp)
  rw [show cmdsOf (p.StartList key length expiry).session = cmdsOf p.session by
        rw [StartList_eq],
      show (p.StartList key length expiry).listEntry = ["RPUSH", key] by rw [StartList_eq],
      e] at hrun
  obtain ⟨h1, h2⟩ := Prod.mk.inj hrun
  have hflat := flatten_singletons vs
  refine ⟨cmds, pay2, ?_, a1, a3, by rw [a4, List.nil_append, hflat]⟩
  apply delivered_of_cmdsOf
  unfold rdbDecoder.EndList
  rw [h2]
  simp only [List.length_cons, NewCommand]
  by_cases h0 : 0 < pay2.length
  · rw [if_pos (by omega), if_pos h0]
    simp only [cmdsOf_didRecvCommand, h1, h2, List.append_assoc]
  · rw [if_neg (by omega), if_neg h0, h1]
    simp

/-- The commands of one sorted-set entry: full batches of 200 elements, then
the remainder. -/
theorem zset_delivered (p : rdbDecoder σ) (hp : p.bufsize = 200) (key : Bytes)
    (cardinality : Nat) (expiry : Int) (ms : List (ℚ × Bytes)) :
    ∃ cmds pay2,
      delivered p (((p.StartZSet key cardinality expiry).run
          (ms.map fun sm => RdbEvent.Zadd key sm.1 sm.2)).EndZSet key)
        = cmds ++ (if 0 < pay2.length then ["ZADD" :: key :: pay2] else []) ∧
      pay2.length < 198 ∧ (∀ c ∈ cmds, c.length = 200 ∧ c.take 2 = ["ZADD", key]) ∧
      cmds.flatMap (List.drop 2) ++ pay2
        = ms.flatMap (fun sm => [FormatInt (int64OfFloat64 sm.1), sm.2]) := by
  obtain ⟨cmds, pay2, e, a1, _, a3, a4⟩ :=
    batchFeed_foldl "ZADD" key 2 (by norm_num)
      (ms.map fun sm => [FormatInt (int64OfFloat64 sm.1), sm.2])
      (cmdsOf p.session) []
      (by intro g hg; obtain ⟨sm, _, rfl⟩ := List.mem_map.mp hg; rfl) (by simp) (by norm_num)
  have hrun := Zadd_run key ms (p.StartZSet key cardinality expiry)
    (by rw [StartZSet_eq]; exact hp)
  rw [show cmdsOf (p.StartZSet key cardinality expiry).session = cmdsOf p.session by
        rw [StartZSet_eq],
      show (p.StartZSet key cardinality expiry).zsetEntry = ["ZADD", key] by rw [StartZSet_eq],
      e] at hrun
  obtain ⟨h1, h2⟩ := Prod.mk.inj hrun
  refine ⟨cmds, pay2, ?_, a1, a3, by simpa [List.flatMap] using a4⟩
  apply delivered_of_cmdsOf
  unfold rdbDecoder.EndZSet
  rw [h2]
  simp only [List.length_cons, NewCommand]
  by_cases h0 : 0 < pay2.length
  · rw [if_pos (by omega), if_pos h0]
    simp only [cmdsOf_didRecvCommand, h1, h2, List.append_assoc]
  · rw [if_neg (by omega), if_neg h0, h1]
    simp

/-! ## Invariants of a decoder created by `newDecoder` -/

theorem newDecoder_batched (s : SlaveSession σ) : (newDecoder s).Batched := by
  simp [rdbDecoder.Batched, newDecoder]

/-- Every callback keeps the batching invariant, and what it delivers has at
most 200 elements. -/
theorem handle_batched (p : rdbDecoder σ) (hp : p.Batched) (ev : RdbEvent) :
    (p.handle ev).Batched ∧
    ∃ extra, cmdsOf (p.handle ev).session = cmdsOf p.session ++ extra ∧
      ∀ c ∈ extra, c.length ≤ 200 := by
  obtain ⟨hb, h1, h2, h3, h4, h5, h6⟩ := hp
  cases ev with
  | StartDatabase n => exact ⟨⟨hb, h1, h2, h3, h4, h5, h6⟩, [], by simp [rdbDecoder.handle, rdbDecoder.StartDatabase], by simp⟩
  | EndDatabase n => exact ⟨⟨hb, h1, h2, h3, h4, h5, h6⟩, [], by simp [rdbDecoder.handle, rdbDecoder.EndDatabase], by simp⟩
  | EndRDB =>
    exact ⟨⟨hb, h1, h2, h3, h4, h5, h6⟩, [],
      by simp [rdbDecoder.handle, rdbDecoder.EndRDB, SlaveSession.RdbFinished, cmdsOf], by simp⟩
  | Set key value expiry =>
    exact ⟨⟨hb, h1, h2, h3, h4, h5, h6⟩, [["SET", key, value]],
      by simp [rdbDecoder.handle, rdbDecoder.Set, cmdsOf_didRecvCommand, NewCommand], by simp⟩
  | StartHash key length expiry =>
    simp only [rdbDecoder.handle, StartHash_eq]
    exact ⟨⟨hb, by simp, by simp, h3, h4, h5, h6⟩, [], by simp, by simp⟩
  | StartSet key cardinality expiry =>
    simp only [rdbDecoder.handle, StartSet_eq]
    exact ⟨⟨hb, h1, h2, by simp, h4, h5, h6⟩, [], by simp, by simp⟩
  | StartList key length expiry =>
    simp only [rdbDecoder.handle, StartList_eq]
    exact ⟨⟨hb, h1, h2, h3, by simp, h5, h6⟩, [], by simp, by simp⟩
  | StartZSet key cardinality expiry =>
    simp only [rdbDecoder.handle, StartZSet_eq]
    exact ⟨⟨hb, h1, h2, h3, h4, by simp, by simp⟩, [], by simp, by simp⟩
  | Hset key field value =>
    simp only [rdbDecoder.handle, Hset_eq, hb]
    by_cases h : p.hashEntry.length + 2 ≥ 200
    · rw [if_pos (by omega)]
      exact ⟨⟨rfl, by simp, by simp, h3, h4, h5, h6⟩, [p.hashEntry ++ [field, value]],
        by simp [cmdsOf_didRecvCommand], by simp; omega⟩
    · rw [if_neg (by omega)]
      exact ⟨⟨rfl, by simp; omega, by simp; omega, h3, h4, h5, h6⟩, [], by simp, by simp⟩
  | Sadd key member =>
    simp only [rdbDecoder.handle, Sadd_eq, hb]
    rw [if_neg (by omega)]
    exact ⟨⟨hb, h1, h2, h3, h4, h5, h6⟩, [], by simp, by simp⟩
  | Rpush key value =>
    simp only [rdbDecoder.handle, Rpush_eq, hb]
    by_cases h : p.listEntry.length + 1 ≥ 200
    · rw [if_pos (by omega)]
      exact ⟨⟨rfl, h1, h2, h3, by simp, h5, h6⟩, [p.listEntry ++ [value]],
        by simp [cmdsOf_didRecvCommand], by simp; omega⟩
    · rw [if_neg (by omega)]
      exact ⟨⟨rfl, h1, h2, h3, by simp; omega, h5, h6⟩, [], by simp, by simp⟩
  | Zadd key score member =>
    simp only [rdbDecoder.handle, Zadd_eq, hb]
    by_cases h : p.zsetEntry.length + 2 ≥ 200
    · rw [if_pos (by omega)]
      exact ⟨⟨rfl, h1, h2, h3, h4, by simp, by simp⟩,
        [p.zsetEntry ++ [FormatInt (int64OfFloat64 score), member]],
        by simp [cmdsOf_didRecvCommand], by simp; omega⟩
    · rw [if_neg (by omega)]
      exact ⟨⟨rfl, h1, h2, h3, h4, by simp; omega, by simp; omega⟩, [], by simp, by simp⟩
  | EndHash key =>
    simp only [rdbDecoder.handle, rdbDecoder.EndHash, NewCommand]
    split_ifs
    · exact ⟨⟨hb, h1, h2, h3, h4, h5, h6⟩, [p.hashEntry], by simp [cmdsOf_didRecvCommand],
        by simp; omega⟩
    · exact ⟨⟨hb, h1, h2, h3, h4, h5, h6⟩, [], by simp, by simp⟩
  | EndSet key =>
    simp only [rdbDecoder.handle, rdbDecoder.EndSet, NewCommand]
    split_ifs
    · exact ⟨⟨hb, h1, h2, h3, h4, h5, h6⟩, [p.setEntry], by simp [cmdsOf_didRecvCommand],
        by simp; omega⟩
    · exact ⟨⟨hb, h1, h2, h3, h4, h5, h6⟩, [], by simp, by simp⟩
  | EndList key =>
    simp only [rdbDecoder.handle, rdbDecoder.EndList, NewCommand]
    split_ifs
    · exact ⟨⟨hb, h1, h2, h3, h4, h5, h6⟩, [p.listEntry], by simp [cmdsOf_didRecvCommand],
        by simp; omega⟩
    · exact ⟨⟨hb, h1, h2, h3, h4, h5, h6⟩, [], by simp, by simp⟩
  | EndZSet key =>
    simp only [rdbDecoder.handle, rdbDecoder.EndZSet, NewCommand]
    split_ifs
    · exact ⟨⟨hb, h1, h2, h3, h4, h5, h6⟩, [p.zsetEntry], by simp [cmdsOf_didRecvCommand],
        by simp; omega⟩
    · exact ⟨⟨hb, h1, h2, h3, h4, h5, h6⟩, [], by simp, by simp⟩

theorem run_batched (evs : List RdbEvent) :
    ∀ p : rdbDecoder σ, p.Batched →
      (p.run evs).Batched ∧
      ∃ extra, cmdsOf (p.run evs).session = cmdsOf p.session ++ extra ∧
        ∀ c ∈ extra, c.length ≤ 200 := by
  induction evs with
  | nil => intro p hp; exact ⟨hp, [], by simp [run_nil], by simp⟩
  | cons ev evs ih =>
    intro p hp
    obtain ⟨hb1, x1, e1, l1⟩ := handle_batched p hp ev
    obtain ⟨hb2, x2, e2, l2⟩ := ih _ hb1
    refine ⟨by rw [run_cons]; exact hb2, x1 ++ x2, by rw [run_cons, e2, e1, List.append_assoc], ?_⟩
    intro c hc
    rcases List.mem_append.mp hc with h | h
    · exact l1 c h
    · exact l2 c h

theorem run_bufsize (s : SlaveSession σ) (evs : List RdbEvent) :
    ((newDecoder s).run evs).bufsize = 200 :=
  (run_batched evs _ (newDecoder_batched s)).1.1

/-! ## The snapshot decoder: hash batches -/

theorem length_flatMap_drop (cmds : List Command) (h : ∀ c ∈ cmds, c.length = 200) :
    (cmds.flatMap (List.drop 2)).length = 198 * cmds.length := by
  induction cmds with
  | nil => rfl
  | cons c cmds ih =>
    have hc : c.length = 200 := h c (List.mem_cons_self _ _)
    have ih2 := ih (fun c2 h2 => h c2 (List.mem_cons_of_mem _ h2))
    simp only [List.flatMap_cons, List.length_append, List.length_drop, List.length_cons, ih2, hc]
    omega

theorem length_flatMap_pairs (fs : List (Bytes × Bytes)) :
    (fs.flatMap (fun fv => [fv.1, fv.2])).length = 2 * fs.length := by
  induction fs with
  | nil => rfl
  | cons fv fs ih =>
    simp only [List.flatMap_cons, List.length_append, List.length_cons, List.length_nil, ih]
    omega

/-- The sizes of the commands of one hash entry: `N / 99` commands of 200
elements, then one of `2 + 2 * (N % 99)` elements when 99 does not divide `N`. -/
theorem hash_lengths (p : rdbDecoder σ) (hp : p.bufsize = 200) (key : Bytes) (length : Nat)
    (expiry : Int) (fs : List (Bytes × Bytes)) :
    (delivered p (decodeHash p key length expiry fs)).map List.length
      = List.replicate (fs.length / 99) 200
          ++ (if fs.length % 99 = 0 then [] else [2 + 2 * (fs.length % 99)]) := by
  obtain ⟨cmds, pay2, e, a1, a3, a4⟩ := hash_delivered p hp key length expiry fs
  have hlen := congrArg List.length a4
  rw [List.length_append, length_flatMap_drop cmds (fun c hc => (a3 c hc).1),
    length_flatMap_pairs] at hlen
  have hc : cmds.length = fs.length / 99 := by omega
  have hr : pay2.length = 2 * (fs.length % 99) := by omega
  unfold decodeHash
  rw [e, List.map_append]
  have hrep : cmds.map List.length = List.replicate (fs.length / 99) 200 := by
    rw [List.eq_replicate_iff]
    refine ⟨by simp [hc], ?_⟩
    intro b hb
    obtain ⟨c, hcm, rfl⟩ := List.mem_map.mp hb
    exact (a3 c hcm).1
  rw [hrep]
  congr 1
  by_cases h0 : fs.length % 99 = 0
  · rw [if_pos h0, if_neg (by omega)]; rfl
  · rw [if_neg h0, if_pos (by omega)]
    simp only [List.map_cons, List.map_nil, List.length_cons, hr]
    congr 1
    omega

/-- C1, as the code has it.  Decoding a hash of `N` fields at the batch limit
200 delivers `ceil(N / 99)` commands, each beginning with `HSET` and the key:
the limit counts the name and the key too, so a full command holds 99
field/value pairs.  A hash of 450 fields gives 5 commands with 99, 99, 99, 99
and 54 fields. -/
theorem hash_batches (s : SlaveSession σ) (evs : List RdbEvent) (key : Bytes) (length : Nat)
    (expiry : Int) (fs : List (Bytes × Bytes)) :
    (delivered ((newDecoder s).run evs)
        (decodeHash ((newDecoder s).run evs) key length expiry fs)).length
      = (fs.length + 98) / 99 ∧
    (delivered ((newDecoder s).run evs)
        (decodeHash ((newDecoder s).run evs) key length expiry fs)).map List.length
      = List.replicate (fs.length / 99) 200
          ++ (if fs.length % 99 = 0 then [] else [2 + 2 * (fs.length % 99)]) ∧
    (∀ c ∈ delivered ((newDecoder s).run evs)
        (decodeHash ((newDecoder s).run evs) key length expiry fs), c.take 2 = ["HSET", key]) ∧
    (fs.length = 450 →
      (delivered ((newDecoder s).run evs)
        (decodeHash ((newDecoder s).run evs) key length expiry fs)).map
          (fun c => (c.length - 2) / 2) = [99, 99, 99, 99, 54]) := by
  have hp := run_bufsize s evs
  have hl := hash_lengths _ hp key length expiry fs
  refine ⟨?_, hl, ?_, ?_⟩
  · have h := congrArg List.length hl
    rw [List.length_map] at h
    rw [h, List.length_append, List.length_replicate]
    split_ifs <;> simp <;> omega
  · obtain ⟨cmds, pay2, e, a1, a3, _⟩ := hash_delivered _ hp key length expiry fs
    intro c hc
    unfold decodeHash at hc
    rw [e] at hc
    exact ((batch_tail "HSET" key cmds pay2 a1 a3).1 c hc).1
  · intro h450
    have h2 : (delivered ((newDecoder s).run evs)
        (decodeHash ((newDecoder s).run evs) key length expiry fs)).map
          (fun c => (c.length - 2) / 2)
        = ((delivered ((newDecoder s).run evs)
            (decodeHash ((newDecoder s).run evs) key length expiry fs)).map List.length).map
              (fun n => (n - 2) / 2) := by
      rw [List.map_map]; rfl
    rw [h2, hl, h450]
    decide

/-- C1, the claim as written fails: a hash of 450 fields is delivered in 5
commands (four of 200 elements and one of 110), not in `ceil(450 / 200) = 3`. -/
theorem hash_450_not_three :
    (delivered (newDecoder (NewSlaveSession () "master"))
        (decodeHash (newDecoder (NewSlaveSession () "master")) "k" 450 0
          (List.replicate 450 ("f", "v")))).map List.length = [200, 200, 200, 200, 110] ∧
    (delivered (newDecoder (NewSlaveSession () "master"))
        (decodeHash (newDecoder (NewSlaveSession () "master")) "k" 450 0
          (List.replicate 450 ("f", "v")))).length ≠ (450 + 199) / 200 := by
  have hl := hash_lengths (newDecoder (NewSlaveSession () "master")) rfl "k" 450 0
    (List.replicate 450 ("f", "v"))
  rw [List.length_replicate] at hl
  have hv : (List.replicate (450 / 99) 200
      ++ (if 450 % 99 = 0 then [] else [2 + 2 * (450 % 99)])) = [200, 200, 200, 200, 110] := by
    decide
  rw [hv] at hl
  refine ⟨hl, ?_⟩
  have h := congrArg List.length hl
  rw [List.length_map] at h
  rw [h]
  decide

/-! ## The snapshot decoder: sets -/

theorem Sadd_run (key : Bytes) (ms : List Bytes) :
    ∀ p : rdbDecoder σ, p.bufsize = 200 → p.setEntry.length < 200 →
      p.run (ms.map fun m => RdbEvent.Sadd key m) = p := by
  induction ms with
  | nil => intro p _ _; rfl
  | cons m ms ih =>
    intro p hp hl
    have hstep : p.Sadd key m = p := by
      rw [Sadd_eq, hp, if_neg (by omega)]
    simp only [List.map_cons, run_cons, rdbDecoder.handle, hstep]
    exact ih p hp hl

/-- Whatever its members, a set entry delivers no command. -/
theorem set_delivered (p : rdbDecoder σ) (hp : p.bufsize = 200) (key : Bytes)
    (cardinality : Nat) (expiry : Int) (ms : List Bytes) :
    delivered p (decodeSet p key cardinality expiry ms) = [] := by
  apply delivered_of_cmdsOf
  unfold decodeSet
  rw [Sadd_run key ms _ (by rw [StartSet_eq]; exact hp) (by rw [StartSet_eq]; simp)]
  simp [rdbDecoder.EndSet, StartSet_eq]

/-- C2, the code at the failing input: a set with the single member `a` is
decoded into no `SADD` command at all, so the member is lost. -/
theorem set_member_lost :
    delivered (newDecoder (NewSlaveSession () "master"))
      (decodeSet (newDecoder (NewSlaveSession () "master")) "k" 1 0 ["a"]) = [] :=
  set_delivered _ rfl "k" 1 0 ["a"]

/-! ## The snapshot decoder: payload, sizes and counters -/

/-- C3.  Between `StartHash` and `EndHash` (respectively `StartList` and
`EndList`) every delivered command begins with `HSET` (respectively `RPUSH`)
and the key, and the remaining arguments of the commands, concatenated in
emission order, are the original field, value, field, value, ... sequence
(respectively the original values): nothing is lost, duplicated or reordered. -/
theorem hash_list_payload (s : SlaveSession σ) (evs : List RdbEvent) (key : Bytes)
    (length : Nat) (expiry : Int) (fs : List (Bytes × Bytes)) (vs : List Bytes) :
    (∀ c ∈ delivered ((newDecoder s).run evs)
        (decodeHash ((newDecoder s).run evs) key length expiry fs), c.take 2 = ["HSET", key]) ∧
    (delivered ((newDecoder s).run evs)
        (decodeHash ((newDecoder s).run evs) key length expiry fs)).flatMap (List.drop 2)
      = fs.flatMap (fun fv => [fv.1, fv.2]) ∧
    (∀ c ∈ delivered ((newDecoder s).run evs)
        (decodeList ((newDecoder s).run evs) key length expiry vs), c.take 2 = ["RPUSH", key]) ∧
    (delivered ((newDecoder s).run evs)
        (decodeList ((newDecoder s).run evs) key length expiry vs)).flatMap (List.drop 2)
      = vs := by
  have hp := run_bufsize s evs
  obtain ⟨cmds, pay2, e, a1, a3, a4⟩ := hash_delivered _ hp key length expiry fs
  obtain ⟨lcmds, lpay2, le, l1, l3, l4⟩ := list_delivered _ hp key length expiry vs
  have hh := batch_tail "HSET" key cmds pay2 a1 a3
  have hl := batch_tail "RPUSH" key lcmds lpay2 l1 l3
  unfold decodeHash decodeList
  rw [e, le]
  exact ⟨fun c hc => (hh.1 c hc).1, by rw [hh.2, a4], fun c hc => (hl.1 c hc).1,
    by rw [hl.2, l4]⟩

/-- C4.  Every command a decoder created by `newDecoder` delivers, whatever the
callbacks made on it, has at most 200 elements (name, key and payload); so have
in particular the commands of each hash, set, list and sorted-set entry,
whatever the declared cardinality and the number of members. -/
theorem delivered_at_most_200 (s : SlaveSession σ) (evs : List RdbEvent) (key : Bytes)
    (n : Nat) (expiry : Int) (fs : List (Bytes × Bytes)) (ms vs : List Bytes)
    (zs : List (ℚ × Bytes)) :
    (∀ c ∈ delivered (newDecoder s) ((newDecoder s).run evs), c.length ≤ 200) ∧
    (∀ c ∈ delivered ((newDecoder s).run evs)
        (decodeHash ((newDecoder s).run evs) key n expiry fs), c.length ≤ 200) ∧
    (∀ c ∈ delivered ((newDecoder s).run evs)
        (decodeSet ((newDecoder s).run evs) key n expiry ms), c.length ≤ 200) ∧
    (∀ c ∈ delivered ((newDecoder s).run evs)
        (decodeList ((newDecoder s).run evs) key n expiry vs), c.length ≤ 200) ∧
    (∀ c ∈ delivered ((newDecoder s).run evs)
        (decodeZSet ((newDecoder s).run evs) key n expiry zs), c.length ≤ 200) := by
  have hp := run_bufsize s evs
  refine ⟨?_, ?_, ?_, ?_, ?_⟩
  · obtain ⟨_, extra, e, hl⟩ := run_batched evs _ (newDecoder_batched s)
    rw [delivered_of_cmdsOf _ _ extra e]
    exact hl
  · obtain ⟨cmds, pay2, e, a1, a3, _⟩ := hash_delivered _ hp key n expiry fs
    unfold decodeHash
    rw [e]
    exact fun c hc => ((batch_tail "HSET" key cmds pay2 a1 a3).1 c hc).2
  · rw [set_delivered _ hp]
    simp
  · obtain ⟨cmds, pay2, e, a1, a3, _⟩ := list_delivered _ hp key n expiry vs
    unfold decodeList
    rw [e]
    exact fun c hc => ((batch_tail "RPUSH" key cmds pay2 a1 a3).1 c hc).2
  · obtain ⟨cmds, pay2, e, a1, a3, _⟩ := zset_delivered _ hp key n expiry zs
    unfold decodeZSet
    rw [e]
    exact fun c hc => ((batch_tail "ZADD" key cmds pay2 a1 a3).1 c hc).2

/-- C5.  `keyCount` grows by exactly one at `StartHash`, `StartSet`,
`StartList` and `StartZSet`, and is unchanged by `Hset`, `Sadd`, `Rpush`,
`Zadd`, `EndHash`, `EndSet`, `EndList` and `EndZSet`; so a whole composite
entry advances it by exactly one, whatever its members (none included). -/
theorem keyCount_once_per_entry (p : rdbDecoder σ) (key field value member : Bytes) (n : Nat)
    (expiry : Int) (score : ℚ) (fs : List (Bytes × Bytes)) (ms vs : List Bytes)
    (zs : List (ℚ × Bytes)) :
    (p.StartHash key n expiry).keyCount = p.keyCount + 1 ∧
    (p.StartSet key n expiry).keyCount = p.keyCount + 1 ∧
    (p.StartList key n expiry).keyCount = p.keyCount + 1 ∧
    (p.StartZSet key n expiry).keyCount = p.keyCount + 1 ∧
    (p.Hset key field value).keyCount = p.keyCount ∧
    (p.Sadd key member).keyCount = p.keyCount ∧
    (p.Rpush key value).keyCount = p.keyCount ∧
    (p.Zadd key score member).keyCount = p.keyCount ∧
    (p.EndHash key).keyCount = p.keyCount ∧
    (p.EndSet key).keyCount = p.keyCount ∧
    (p.EndList key).keyCount = p.keyCount ∧
    (p.EndZSet key).keyCount = p.keyCount ∧
    (decodeHash p key n expiry fs).keyCount = p.keyCount + 1 ∧
    (decodeSet p key n expiry ms).keyCount = p.keyCount + 1 ∧
    (decodeList p key n expiry vs).keyCount = p.keyCount + 1 ∧
    (decodeZSet p key n expiry zs).keyCount = p.keyCount + 1 := by
  have hH : ∀ l : List (Bytes × Bytes),
      countKeys (l.map fun fv => RdbEvent.Hset key fv.1 fv.2) = 0 := by
    intro l; induction l with
    | nil => rfl
    | cons a l ih => simpa [countKeys] using ih
  have hS : ∀ l : List Bytes, countKeys (l.map fun m => RdbEvent.Sadd key m) = 0 := by
    intro l; induction l with
    | nil => rfl
    | cons a l ih => simpa [countKeys] using ih
  have hL : ∀ l : List Bytes, countKeys (l.map fun v => RdbEvent.Rpush key v) = 0 := by
    intro l; induction l with
    | nil => rfl
    | cons a l ih => simpa [countKeys] using ih
  have hZ : ∀ l : List (ℚ × Bytes),
      countKeys (l.map fun sm => RdbEvent.Zadd key sm.1 sm.2) = 0 := by
    intro l; induction l with
    | nil => rfl
    | cons a l ih => simpa [countKeys] using ih
  have e1 := handle_keyCount p (.StartHash key n expiry)
  have e2 := handle_keyCount p (.StartSet key n expiry)
  have e3 := handle_keyCount p (.StartList key n expiry)
  have e4 := handle_keyCount p (.StartZSet key n expiry)
  have e5 := handle_keyCount p (.Hset key field value)
  have e6 := handle_keyCount p (.Sadd key member)
  have e7 := handle_keyCount p (.Rpush key value)
  have e8 := handle_keyCount p (.Zadd key score member)
  have e9 := handle_keyCount p (.EndHash key)
  have e10 := handle_keyCount p (.EndSet key)
  have e11 := handle_keyCount p (.EndList key)
  have e12 := handle_keyCount p (.EndZSet key)
  simp only [rdbDecoder.handle, countKeys, zero_add, add_zero] at e1 e2 e3 e4 e5 e6 e7 e8 e9 e10 e11 e12
  refine ⟨e1, e2, e3, e4, e5, e6, e7, e8, e9, e10, e11, e12, ?_, ?_, ?_, ?_⟩
  · have h := handle_keyCount
      ((p.StartHash key n expiry).run (fs.map fun fv => RdbEvent.Hset key fv.1 fv.2))
      (.EndHash key)
    simp only [rdbDecoder.handle, countKeys, add_zero] at h
    unfold decodeHash
    rw [h, run_keyCount, hH, e1, add_zero]
  · have h := handle_keyCount
      ((p.StartSet key n expiry).run (ms.map fun m => RdbEvent.Sadd key m)) (.EndSet key)
    simp only [rdbDecoder.handle, countKeys, add_zero] at h
    unfold decodeSet
    rw [h, run_keyCount, hS, e2, add_zero]
  · have h := handle_keyCount
      ((p.StartList key n expiry).run (vs.map fun v => RdbEvent.Rpush key v)) (.EndList key)
    simp only [rdbDecoder.handle, countKeys, add_zero] at h
    unfold decodeList
    rw [h, run_keyCount, hL, e3, add_zero]
  · have h := handle_keyCount
      ((p.StartZSet key n expiry).run (zs.map fun sm => RdbEvent.Zadd key sm.1 sm.2))
      (.EndZSet key)
    simp only [rdbDecoder.handle, countKeys, add_zero] at h
    unfold decodeZSet
    rw [h, run_keyCount, hZ, e4, add_zero]

/-- C6.  `EndRDB` on a decoder created by `newDecoder` calls `RdbFinished`
exactly once, with the number of scalar `Set` calls plus the number of
`StartHash`, `StartSet`, `StartList` and `StartZSet` calls made so far; and each
scalar `Set` delivers exactly one command `[SET, key, value]`, flagged as
coming from the snapshot. -/
theorem EndRDB_reports_key_count (s : SlaveSession σ) (evs : List RdbEvent)
    (p : rdbDecoder σ) (key value : Bytes) (expiry : Int) :
    ((newDecoder s).run evs).EndRDB.session.finished
      = ((newDecoder s).run evs).session.finished ++ [countKeys evs] ∧
    (p.Set key value expiry).session.received
      = p.session.received ++ [⟨["SET", key, value], p.session.totalCount + 1, true⟩] := by
  constructor
  · have h := run_keyCount evs (newDecoder s)
    simp only [rdbDecoder.EndRDB, SlaveSession.RdbFinished, h]
    simp [newDecoder]
  · rfl

/-! ## The snapshot decoder: sorted-set scores -/

/-- Truncating division of numerator by denominator is the integer part. -/
theorem truncToInt_eq_integerPart (q : ℚ) : truncToInt q = integerPart q := by
  unfold truncToInt integerPart
  by_cases h : 0 ≤ q
  · rw [if_pos h, Int.tdiv_eq_ediv (Rat.num_nonneg.mpr h) (Int.natCast_nonneg _), Rat.floor_def]
  · rw [if_neg h]
    have hneg : 0 ≤ -q := by linarith
    have h1 : (-q).num.tdiv (-q).den = ⌊-q⌋ := by
      rw [Int.tdiv_eq_ediv (Rat.num_nonneg.mpr hneg) (Int.natCast_nonneg _), Rat.floor_def]
    rw [Rat.neg_num, Rat.neg_den, Int.neg_tdiv, Int.floor_neg] at h1
    exact neg_injective h1

/-- The integer part of a score in the signed 64-bit range is in that range. -/
theorem integerPart_in_range (q : ℚ) (h1 : -(2 : ℚ) ^ 63 ≤ q) (h2 : q < (2 : ℚ) ^ 63) :
    -(2 : Int) ^ 63 ≤ integerPart q ∧ integerPart q < (2 : Int) ^ 63 := by
  unfold integerPart
  by_cases h : 0 ≤ q
  · rw [if_pos h]
    constructor
    · have : (0 : Int) ≤ ⌊q⌋ := Int.floor_nonneg.mpr h
      omega
    · rw [Int.floor_lt]
      exact_mod_cast h2
  · rw [if_neg h]
    constructor
    · have hm : ⌈((-(2 : Int) ^ 63 : Int) : ℚ)⌉ ≤ ⌈q⌉ := Int.ceil_mono (by exact_mod_cast h1)
      rwa [Int.ceil_intCast] at hm
    · have : ⌈q⌉ ≤ 0 := by
        rw [Int.ceil_le]
        exact_mod_cast le_of_lt (not_le.mp h)
      omega

theorem int64OfFloat64_eq (q : ℚ) (h1 : -(2 : ℚ) ^ 63 ≤ q) (h2 : q < (2 : ℚ) ^ 63) :
    int64OfFloat64 q = integerPart q := by
  have hr := integerPart_in_range q h1 h2
  unfold int64OfFloat64
  simp only [truncToInt_eq_integerPart]
  rw [if_pos hr]

theorem flatMap_score_text (zs : List (ℚ × Bytes))
    (hz : ∀ sm ∈ zs, -(2 : ℚ) ^ 63 ≤ sm.1 ∧ sm.1 < (2 : ℚ) ^ 63) :
    zs.flatMap (fun sm => [FormatInt (int64OfFloat64 sm.1), sm.2])
      = zs.flatMap (fun sm => [FormatInt (integerPart sm.1), sm.2]) := by
  induction zs with
  | nil => rfl
  | cons sm zs ih =>
    have hsm := hz sm (List.mem_cons_self _ _)
    simp only [List.flatMap_cons]
    rw [ih (fun x hx => hz x (List.mem_cons_of_mem _ hx)),
      int64OfFloat64_eq sm.1 hsm.1 hsm.2]

/-- C7.  For sorted-set members whose scores lie in the signed 64-bit range,
every delivered command begins with `ZADD` and the key, and the remaining
arguments, concatenated in emission order, are the pairs (decimal text of the
integer part of the score, member) in arrival order. -/
theorem zset_score_text (s : SlaveSession σ) (evs : List RdbEvent) (key : Bytes)
    (cardinality : Nat) (expiry : Int) (zs : List (ℚ × Bytes))
    (hz : ∀ sm ∈ zs, -(2 : ℚ) ^ 63 ≤ sm.1 ∧ sm.1 < (2 : ℚ) ^ 63) :
    (∀ c ∈ delivered ((newDecoder s).run evs)
        (decodeZSet ((newDecoder s).run evs) key cardinality expiry zs),
      c.take 2 = ["ZADD", key]) ∧
    (delivered ((newDecoder s).run evs)
        (decodeZSet ((newDecoder s).run evs) key cardinality expiry zs)).flatMap (List.drop 2)
      = zs.flatMap (fun sm => [FormatInt (integerPart sm.1), sm.2]) := by
  have hp := run_bufsize s evs
  obtain ⟨cmds, pay2, e, a1, a3, a4⟩ := zset_delivered _ hp key cardinality expiry zs
  have ht := batch_tail "ZADD" key cmds pay2 a1 a3
  have hfm := flatMap_score_text zs hz
  unfold decodeZSet
  rw [e]
  exact ⟨fun c hc => (ht.1 c hc).1, by rw [ht.2, a4, hfm]⟩

/-- C7 on the scores 1.9, -1.9 and 3.0: the command delivered is
`ZADD k 1 a -1 b 3 c`. -/
theorem zset_score_text_witness :
    (∀ sm ∈ [((19 : ℚ) / 10, "a"), (-(19 : ℚ) / 10, "b"), ((3 : ℚ), "c")],
        -(2 : ℚ) ^ 63 ≤ sm.1 ∧ sm.1 < (2 : ℚ) ^ 63) ∧
    (delivered ((newDecoder (NewSlaveSession () "master")).run [])
        (decodeZSet ((newDecoder (NewSlaveSession () "master")).run []) "k" 3 0
          [((19 : ℚ) / 10, "a"), (-(19 : ℚ) / 10, "b"), ((3 : ℚ), "c")])).flatMap (List.drop 2)
      = ["1", "a", "-1", "b", "3", "c"] := by
  have hz : ∀ sm ∈ [((19 : ℚ) / 10, ("a" : Bytes)), (-(19 : ℚ) / 10, "b"), ((3 : ℚ), "c")],
      -(2 : ℚ) ^ 63 ≤ sm.1 ∧ sm.1 < (2 : ℚ) ^ 63 := by
    intro sm hsm
    simp only [List.mem_cons, List.mem_singleton, List.not_mem_nil, or_false] at hsm
    rcases hsm with rfl | rfl | rfl <;> norm_num
  have h1 : integerPart ((19 : ℚ) / 10) = 1 := by
    unfold integerPart
    rw [if_pos (by norm_num), Int.floor_eq_iff]
    norm_num
  have h2 : integerPart (-(19 : ℚ) / 10) = -1 := by
    unfold integerPart
    rw [if_neg (by norm_num), Int.ceil_eq_iff]
    norm_num
  have h3 : integerPart (3 : ℚ) = 3 := by
    unfold integerPart
    rw [if_pos (by norm_num), Int.floor_eq_iff]
    norm_num
  refine ⟨hz, ?_⟩
  rw [(zset_score_text (NewSlaveSession () "master") [] "k" 3 0 _ hz).2]
  simp only [List.flatMap_cons, List.flatMap_nil, h1, h2, h3]
  decide

/-! ## The session: peer detection and `Sync` -/

/-- The callbacks of the decoder touch neither the status of the session nor
what it has written. -/
theorem handle_frame (p : rdbDecoder σ) (ev : RdbEvent) :
    (p.handle ev).session.status = p.session.status ∧
    (p.handle ev).session.sent = p.session.sent := by
  cases ev <;>
    simp only [rdbDecoder.handle, StartHash_eq, StartSet_eq, StartList_eq,
      StartZSet_eq, Hset_eq, Sadd_eq, Rpush_eq, Zadd_eq, rdbDecoder.EndHash,
      rdbDecoder.EndSet, rdbDecoder.EndList, rdbDecoder.EndZSet, rdbDecoder.Set,
      rdbDecoder.EndRDB, rdbDecoder.StartDatabase, rdbDecoder.EndDatabase] <;>
    first
      | exact ⟨rfl, rfl⟩
      | exact ⟨trivial, trivial⟩
      | (split_ifs <;> exact ⟨rfl, rfl⟩)

theorem run_frame (evs : List RdbEvent) :
    ∀ p : rdbDecoder σ, (p.run evs).session.status = p.session.status ∧
      (p.run evs).session.sent = p.session.sent := by
  induction evs with
  | nil => intro p; exact ⟨rfl, rfl⟩
  | cons ev evs ih =>
    intro p
    rw [run_cons]
    exact ⟨(ih _).1.trans (handle_frame p ev).1, (ih _).2.trans (handle_frame p ev).2⟩

/-- The read loop changes neither the status nor what has been written. -/
theorem syncLoop_frame (ops : SessionOps σ) (fuel : Nat) :
    ∀ (s : SlaveSession σ) (fin : Bool),
      (s.syncLoop ops fuel fin).1.status = s.status ∧
      (s.syncLoop ops fuel fin).1.sent = s.sent := by
  induction fuel with
  | zero => intro s fin; exact ⟨rfl, rfl⟩
  | succ fuel ih =>
    intro s fin
    simp only [SlaveSession.syncLoop]
    split_ifs
    · exact ⟨rfl, rfl⟩
    · exact ⟨(ih _ _).1, (ih _ _).2⟩
    · exact ⟨rfl, rfl⟩
    · exact ⟨rfl, rfl⟩
    · exact ⟨(run_frame _ _).1, (run_frame _ _).2⟩
    · exact ⟨(ih _ _).1.trans (run_frame _ _).1, (ih _ _).2.trans (run_frame _ _).2⟩
    · exact ⟨rfl, rfl⟩
    · exact ⟨(ih _ _).1, (ih _ _).2⟩

theorem getRedisInfo_frame (ops : SessionOps σ) (s : SlaveSession σ) (sect : String) :
    (s.getRedisInfo ops sect).1.status = s.status ∧
    (s.getRedisInfo ops sect).1.sent = s.sent ++ [["INFO", sect]] := by
  simp only [SlaveSession.getRedisInfo, SlaveSession.writeCommand, NewCommand]
  split_ifs
  · split <;> exact ⟨rfl, rfl⟩
  · exact ⟨rfl, rfl⟩

theorem isSlaveOfGoRedis_frame (ops : SessionOps σ) (s : SlaveSession σ) :
    (s.isSlaveOfGoRedis ops).1.status = s.status ∧
    (s.isSlaveOfGoRedis ops).1.sent = s.sent ++ [["INFO", "server"]] := by
  simp only [SlaveSession.isSlaveOfGoRedis]
  split_ifs <;> exact getRedisInfo_frame ops s "server"

/-- C8, the code at the failing input: an `INFO` reply that begins with the
marker contains it (at index 0), yet `isSlaveOfGoRedis` answers false, because
it tests `strings.Index(...) > 0`; the same field after a first line is
detected. -/
theorem marker_at_start_not_detected :
    stringsIndex "goredis_version:1.0" "goredis_version" = 0 ∧
    ((scriptedPeer "goredis_version:1.0" []).isSlaveOfGoRedis scriptOps).2 = (false, none) ∧
    ((scriptedPeer "# Server goredis_version:1.0" []).isSlaveOfGoRedis scriptOps).2
      = (true, none) := by
  refine ⟨by decide, by decide, by decide⟩

/-- What `getRedisInfo` does on the connection: it writes the `INFO` request,
then reads one reply, and its error is the error of that read. -/
theorem getRedisInfo_session (ops : SessionOps σ) (s : SlaveSession σ) (sect : String) :
    (s.getRedisInfo ops sect).1.session
      = (ops.ReadReply (ops.WriteCommand s.session ["INFO", sect])).1 ∧
    (s.getRedisInfo ops sect).2.2
      = (ops.ReadReply (ops.WriteCommand s.session ["INFO", sect])).2.2 := by
  simp only [SlaveSession.getRedisInfo, SlaveSession.writeCommand, NewCommand]
  split_ifs
  · split <;> exact ⟨rfl, rfl⟩
  · exact ⟨rfl, rfl⟩

theorem isSlaveOfGoRedis_session (ops : SessionOps σ) (s : SlaveSession σ) :
    (s.isSlaveOfGoRedis ops).1.session
      = (ops.ReadReply (ops.WriteCommand s.session ["INFO", "server"])).1 ∧
    (s.isSlaveOfGoRedis ops).2.2
      = (ops.ReadReply (ops.WriteCommand s.session ["INFO", "server"])).2.2 := by
  simp only [SlaveSession.isSlaveOfGoRedis]
  split_ifs <;> exact getRedisInfo_session ops s "server"

/-- After a successful peer check, `Sync` is the read loop, entered with the
flag `readRdbFinish` false from the session the handshake has left. -/
theorem Sync_enters_loop (ops : SessionOps σ) (fuel : Nat) (s : SlaveSession σ) (uid : String)
    (hok : (({ s with status := SSConnecting } : SlaveSession σ).isSlaveOfGoRedis ops).2.2
      = none) :
    s.Sync ops fuel uid = (s.Sync ops 0 uid).1.syncLoop ops fuel false := by
  simp only [SlaveSession.Sync, hok, ne_eq, not_true_eq_false, if_false, SlaveSession.syncLoop]

/-- The connection on which the read loop starts: the `INFO` request written,
its reply read, then the `SYNC` request written. -/
theorem Sync_loop_entry_session (ops : SessionOps σ) (s : SlaveSession σ) (uid : String)
    (hok : (({ s with status := SSConnecting } : SlaveSession σ).isSlaveOfGoRedis ops).2.2
      = none) :
    (s.Sync ops 0 uid).1.session
      = ops.WriteCommand (ops.ReadReply (ops.WriteCommand s.session ["INFO", "server"])).1
          (if (({ s with status := SSConnecting } : SlaveSession σ).isSlaveOfGoRedis ops).2.1
            then ["SYNC", "UID", uid] else ["SYNC"]) := by
  have hs := (isSlaveOfGoRedis_session ops ({ s with status := SSConnecting })).1
  simp only [SlaveSession.Sync, hok, ne_eq, not_true_eq_false, if_false, SlaveSession.syncLoop]
  split_ifs
  · simp only [SlaveSession.writeCommand, NewCommand, hs]
  · simp only [SlaveSession.writeCommand, NewCommand, hs]

/-- The read loop makes no call of `WriteCommand`: it runs the same whatever
that operation is. -/
theorem syncLoop_no_write (ops : SessionOps σ) (w : σ → Command → σ) (fuel : Nat) :
    ∀ (s : SlaveSession σ) (fin : Bool),
      s.syncLoop { ops with WriteCommand := w } fuel fin = s.syncLoop ops fuel fin := by
  induction fuel with
  | zero => intro s fin; rfl
  | succ fuel ih =>
    intro s fin
    simp only [SlaveSession.syncLoop, ih]

/-- One iteration on a live command frame: the command is delivered with the
flag false and the loop goes on with `readRdbFinish` as it was. -/
theorem syncLoop_command (ops : SessionOps σ) (fuel : Nat) (s : SlaveSession σ) (fin : Bool)
    (h0 : (ops.PeekByte s.session).2.2 = none) (hc : (ops.PeekByte s.session).2.1 = '*')
    (h2 : (ops.ReadCommand (ops.PeekByte s.session).1).2.2 = none) :
    s.syncLoop ops (fuel + 1) fin
      = (({ s with session := (ops.ReadCommand (ops.PeekByte s.session).1).1 } :
            SlaveSession σ).didRecvCommand
          (ops.ReadCommand (ops.PeekByte s.session).1).2.1 false).syncLoop ops fuel fin := by
  simp only [SlaveSession.syncLoop]
  rw [if_neg (by simp [h0]), if_pos hc, if_pos h2]

/-- One iteration on a snapshot: the sigil and the length line are read, the
snapshot is decoded by a fresh decoder, and the loop goes on with
`readRdbFinish` true. -/
theorem syncLoop_snapshot (ops : SessionOps σ) (fuel : Nat) (s : SlaveSession σ)
    (h0 : (ops.PeekByte s.session).2.2 = none) (hc : (ops.PeekByte s.session).2.1 = '$')
    (hl : (ops.ReadLineInteger (ops.ReadByte (ops.PeekByte s.session).1).1).2.2 = none)
    (hd : (ops.Decode (ops.ReadLineInteger (ops.ReadByte (ops.PeekByte s.session).1).1).1).2.2
      = none) :
    s.syncLoop ops (fuel + 1) false
      = ((newDecoder ({ s with session :=
            (ops.Decode (ops.ReadLineInteger (ops.ReadByte (ops.PeekByte s.session).1).1).1).1 } :
            SlaveSession σ)).run
          (ops.Decode (ops.ReadLineInteger (ops.ReadByte (ops.PeekByte s.session).1).1).1).2.1
        ).session.syncLoop ops fuel true := by
  simp only [SlaveSession.syncLoop]
  rw [if_neg (by simp [h0]), if_neg (by simp [hc]), if_pos (by simp [hc]),
    if_neg (by simp [hl]), if_neg (by simp [hd])]

/-- One iteration on any other byte: the byte is read and the loop goes on
with `readRdbFinish` as it was. -/
theorem syncLoop_skip (ops : SessionOps σ) (fuel : Nat) (s : SlaveSession σ) (fin : Bool)
    (h0 : (ops.PeekByte s.session).2.2 = none) (hc : (ops.PeekByte s.session).2.1 ≠ '*')
    (hd : ¬ (fin = false ∧ (ops.PeekByte s.session).2.1 = '$'))
    (hr : (ops.ReadByte (ops.PeekByte s.session).1).2.2 = none) :
    s.syncLoop ops (fuel + 1) fin
      = ({ s with session := (ops.ReadByte (ops.PeekByte s.session).1).1 } :
          SlaveSession σ).syncLoop ops fuel fin := by
  simp only [SlaveSession.syncLoop]
  rw [if_neg (by simp [h0]), if_neg hc, if_neg (by simpa using hd), if_neg (by simp [hr])]

/-- C9.  When the peer check succeeds, `Sync(uid)` writes, after the
`INFO server` request of the check and the reading of its reply, exactly one
request on the connection: `[SYNC, UID, uid]` if the peer was detected as the
same software, `[SYNC]` otherwise.  The read loop starts on the connection
that has received this write, so every read of the stream comes after it, and
the loop itself makes no call of `WriteCommand`.  When the peer check returns
an error, `Sync` returns that error and the connection has received the `INFO`
request only. -/
theorem Sync_writes_one_request (ops : SessionOps σ) (fuel : Nat) (s : SlaveSession σ)
    (uid : String) (w : σ → Command → σ) (t : SlaveSession σ) (fin : Bool) :
    ((({ s with status := SSConnecting } : SlaveSession σ).isSlaveOfGoRedis ops).2.2 = none →
      (s.Sync ops fuel uid).1.sent
        = s.sent ++ [["INFO", "server"],
            if (({ s with status := SSConnecting } : SlaveSession σ).isSlaveOfGoRedis ops).2.1
            then ["SYNC", "UID", uid] else ["SYNC"]]) ∧
    ((({ s with status := SSConnecting } : SlaveSession σ).isSlaveOfGoRedis ops).2.2 ≠ none →
      (s.Sync ops fuel uid).2
        = .returned (({ s with status := SSConnecting } : SlaveSession σ).isSlaveOfGoRedis
            ops).2.2 ∧
      (s.Sync ops fuel uid).1.sent = s.sent ++ [["INFO", "server"]]) ∧
    ((({ s with status := SSConnecting } : SlaveSession σ).isSlaveOfGoRedis ops).2.2 = none →
      (s.Sync ops 0 uid).1.session
        = ops.WriteCommand (ops.ReadReply (ops.WriteCommand s.session ["INFO", "server"])).1
            (if (({ s with status := SSConnecting } : SlaveSession σ).isSlaveOfGoRedis ops).2.1
              then ["SYNC", "UID", uid] else ["SYNC"]) ∧
      s.Sync ops fuel uid = (s.Sync ops 0 uid).1.syncLoop ops fuel false) ∧
    ((({ s with status := SSConnecting } : SlaveSession σ).isSlaveOfGoRedis ops).2.2 ≠ none →
      (s.Sync ops fuel uid).1.session
        = (ops.ReadReply (ops.WriteCommand s.session ["INFO", "server"])).1) ∧
    t.syncLoop { ops with WriteCommand := w } fuel fin = t.syncLoop ops fuel fin := by
  have hf := (isSlaveOfGoRedis_frame ops ({ s with status := SSConnecting })).2
  refine ⟨?_, ?_, ?_, ?_, syncLoop_no_write ops w fuel t fin⟩
  · intro h
    simp only [SlaveSession.Sync, h, ne_eq, not_true_eq_false, if_false]
    rw [(syncLoop_frame ops fuel _ false).2]
    split_ifs
    · simp [SlaveSession.writeCommand, NewCommand, hf]
    · simp [SlaveSession.writeCommand, NewCommand, hf]
  · intro h
    simp only [SlaveSession.Sync]
    rw [if_pos h]
    exact ⟨rfl, hf⟩
  · intro h
    exact ⟨Sync_loop_entry_session ops s uid h, Sync_enters_loop ops fuel s uid h⟩
  · intro h
    simp only [SlaveSession.Sync]
    rw [if_pos h]
    exact (isSlaveOfGoRedis_session ops ({ s with status := SSConnecting })).1

/-- C9 on scripted peers whose connection records what is written to it: one
answering `INFO` with the marker after a first line, one answering without it,
and one whose `INFO` reply cannot be read.  At the entry of the loop the
connection has received the `INFO` request and the one `SYNC` request, and no
byte of the stream has been read yet. -/
theorem Sync_writes_one_request_witness :
    ((scriptedPeer "# Server goredis_version:1.0" []).Sync scriptOps 5 "a1b2c3d4").1.sent
      = [["INFO", "server"], ["SYNC", "UID", "a1b2c3d4"]] ∧
    ((scriptedPeer "# Server redis_version:2.6" []).Sync scriptOps 5 "a1b2c3d4").1.sent
      = [["INFO", "server"], ["SYNC"]] ∧
    ((NewSlaveSession (⟨[], [], [], [], []⟩ : Script) "master").Sync scriptOps 5 "a1b2c3d4").1.sent
      = [["INFO", "server"]] ∧
    ((NewSlaveSession
        ((⟨[(⟨.string "# Server goredis_version:1.0", ""⟩, none)], ['+', '*'], [], [], []⟩ :
          Script), ([] : List Command)) "master").Sync
        (recordWrites scriptOps) 0 "a1b2c3d4").1.session.2
      = [["INFO", "server"], ["SYNC", "UID", "a1b2c3d4"]] ∧
    ((NewSlaveSession
        ((⟨[(⟨.string "# Server goredis_version:1.0", ""⟩, none)], ['+', '*'], [], [], []⟩ :
          Script), ([] : List Command)) "master").Sync
        (recordWrites scriptOps) 0 "a1b2c3d4").1.session.1.bytes = ['+', '*'] ∧
    ((NewSlaveSession
        ((⟨[(⟨.string "# Server goredis_version:1.0", ""⟩, none)], ['+', '*'], [], [], []⟩ :
          Script), ([] : List Command)) "master").Sync
        (recordWrites scriptOps) 9 "a1b2c3d4").1.session.2
      = [["INFO", "server"], ["SYNC", "UID", "a1b2c3d4"]] := by
  refine ⟨?_, ?_, ?_, ?_, ?_, ?_⟩
  · rw [(Sync_writes_one_request scriptOps 5
      (scriptedPeer "# Server goredis_version:1.0" []) "a1b2c3d4" (fun c _ => c)
      (scriptedPeer "" []) false).1 (by decide)]
    decide
  · rw [(Sync_writes_one_request scriptOps 5
      (scriptedPeer "# Server redis_version:2.6" []) "a1b2c3d4" (fun c _ => c)
      (scriptedPeer "" []) false).1 (by decide)]
    decide
  · rw [((Sync_writes_one_request scriptOps 5
      (NewSlaveSession (⟨[], [], [], [], []⟩ : Script) "master") "a1b2c3d4" (fun c _ => c)
      (scriptedPeer "" []) false).2.1 (by decide)).2]
    decide
  · rw [((Sync_writes_one_request (recordWrites scriptOps) 0 _ "a1b2c3d4" (fun c _ => c)
      (NewSlaveSession ((⟨[], [], [], [], []⟩ : Script), ([] : List Command)) "master")
      false).2.2.1 (by decide)).1]
    decide
  · rw [((Sync_writes_one_request (recordWrites scriptOps) 0 _ "a1b2c3d4" (fun c _ => c)
      (NewSlaveSession ((⟨[], [], [], [], []⟩ : Script), ([] : List Command)) "master")
      false).2.2.1 (by decide)).1]
    decide
  · decide

/-- C10, the claim as written fails: the master goes away right after the
handshake, `Sync` returns the error of the failed peek, and the status is still
`connecting`, not `disconnected`. -/
theorem Sync_error_leaves_connecting :
    ((scriptedPeer "# Server redis_version:2.6" []).Sync scriptOps 1 "a1b2c3d4").2
      = .returned (some "EOF") ∧
    ((scriptedPeer "# Server redis_version:2.6" []).Sync scriptOps 1 "a1b2c3d4").1.Status
      = "connecting" ∧
    ((scriptedPeer "# Server redis_version:2.6" []).Sync scriptOps 1 "a1b2c3d4").1.Status
      ≠ SSDisconnected := by
  refine ⟨by decide, by decide, by decide⟩

/-- C10, as the code has it.  After `Sync`, however it ends, `Status()` is
`connecting`: `Sync` assigns the status once, at entry, and it is `Disconnect()`
that sets it to `disconnected`.  Each failure is the value `Sync` returns.  A
failed peer check: `Sync` returns the error of the read of the `INFO` reply.
After a successful peer check `Sync` returns what the read loop returns, and
in the loop, at whatever iteration, a failed peek, a failed command parse, a
failed length line, a failed snapshot decode and a failed byte read each end
the loop with their error, while an iteration without failure hands over to
the next one. -/
theorem Sync_error_returned (ops : SessionOps σ) (fuel : Nat) (s : SlaveSession σ)
    (uid : String) (fin : Bool) :
    (s.Sync ops fuel uid).1.Status = SSConnecting ∧
    ((({ s with status := SSConnecting } : SlaveSession σ).isSlaveOfGoRedis ops).2.2 ≠ none →
      (s.Sync ops fuel uid).2
        = .returned (({ s with status := SSConnecting } : SlaveSession σ).isSlaveOfGoRedis
            ops).2.2) ∧
    ((ops.PeekByte s.session).2.2 ≠ none →
      (s.syncLoop ops (fuel + 1) fin).2 = .returned (ops.PeekByte s.session).2.2) ∧
    ((ops.PeekByte s.session).2.2 = none → (ops.PeekByte s.session).2.1 = '*' →
      (ops.ReadCommand (ops.PeekByte s.session).1).2.2 ≠ none →
      (s.syncLoop ops (fuel + 1) fin).2
        = .returned (ops.ReadCommand (ops.PeekByte s.session).1).2.2) ∧
    ((ops.PeekByte s.session).2.2 = none → (ops.PeekByte s.session).2.1 = '$' → fin = false →
      (ops.ReadLineInteger (ops.ReadByte (ops.PeekByte s.session).1).1).2.2 ≠ none →
      (s.syncLoop ops (fuel + 1) fin).2
        = .returned (ops.ReadLineInteger (ops.ReadByte (ops.PeekByte s.session).1).1).2.2) ∧
    ((ops.PeekByte s.session).2.2 = none → (ops.PeekByte s.session).2.1 = '$' → fin = false →
      (ops.ReadLineInteger (ops.ReadByte (ops.PeekByte s.session).1).1).2.2 = none →
      (ops.Decode (ops.ReadLineInteger (ops.ReadByte (ops.PeekByte s.session).1).1).1).2.2
        ≠ none →
      (s.syncLoop ops (fuel + 1) fin).2
        = .returned
            (ops.Decode (ops.ReadLineInteger (ops.ReadByte (ops.PeekByte s.session).1).1).1).2.2) ∧
    ((ops.PeekByte s.session).2.2 = none → (ops.PeekByte s.session).2.1 ≠ '*' →
      ¬ (fin = false ∧ (ops.PeekByte s.session).2.1 = '$') →
      (ops.ReadByte (ops.PeekByte s.session).1).2.2 ≠ none →
      (s.syncLoop ops (fuel + 1) fin).2
        = .returned (ops.ReadByte (ops.PeekByte s.session).1).2.2) ∧
    (({ s with status := SSConnecting } : SlaveSession σ).isSlaveOfGoRedis ops).2.2
      = (ops.ReadReply (ops.WriteCommand s.session ["INFO", "server"])).2.2 ∧
    ((({ s with status := SSConnecting } : SlaveSession σ).isSlaveOfGoRedis ops).2.2 = none →
      s.Sync ops fuel uid = (s.Sync ops 0 uid).1.syncLoop ops fuel false) ∧
    ((ops.PeekByte s.session).2.2 = none → (ops.PeekByte s.session).2.1 = '*' →
      (ops.ReadCommand (ops.PeekByte s.session).1).2.2 = none →
      s.syncLoop ops (fuel + 1) fin
        = (({ s with session := (ops.ReadCommand (ops.PeekByte s.session).1).1 } :
              SlaveSession σ).didRecvCommand
            (ops.ReadCommand (ops.PeekByte s.session).1).2.1 false).syncLoop ops fuel fin) ∧
    ((ops.PeekByte s.session).2.2 = none → (ops.PeekByte s.session).2.1 = '$' → fin = false →
      (ops.ReadLineInteger (ops.ReadByte (ops.PeekByte s.session).1).1).2.2 = none →
      (ops.Decode (ops.ReadLineInteger (ops.ReadByte (ops.PeekByte s.session).1).1).1).2.2
        = none →
      s.syncLoop ops (fuel + 1) fin
        = ((newDecoder ({ s with session :=
              (ops.Decode
                (ops.ReadLineInteger (ops.ReadByte (ops.PeekByte s.session).1).1).1).1 } :
              SlaveSession σ)).run
            (ops.Decode (ops.ReadLineInteger (ops.ReadByte (ops.PeekByte s.session).1).1).1).2.1
          ).session.syncLoop ops fuel true) ∧
    ((ops.PeekByte s.session).2.2 = none → (ops.PeekByte s.session).2.1 ≠ '*' →
      ¬ (fin = false ∧ (ops.PeekByte s.session).2.1 = '$') →
      (ops.ReadByte (ops.PeekByte s.session).1).2.2 = none →
      s.syncLoop ops (fuel + 1) fin
        = ({ s with session := (ops.ReadByte (ops.PeekByte s.session).1).1 } :
            SlaveSession σ).syncLoop ops fuel fin) ∧
    (s.Disconnect).1.Status = SSDisconnected ∧
    (s.Disconnect).2 = none ∧
    ((s.Sync ops fuel uid).1.Disconnect).1.Status = SSDisconnected ∧
    ((s.Sync ops fuel uid).1.Disconnect).1.received = (s.Sync ops fuel uid).1.received ∧
    ((s.Sync ops fuel uid).1.Disconnect).1.totalCount = (s.Sync ops fuel uid).1.totalCount := by
  refine ⟨?_, ?_, ?_, ?_, ?_, ?_, ?_,
    (isSlaveOfGoRedis_session ops ({ s with status := SSConnecting })).2,
    Sync_enters_loop ops fuel s uid, syncLoop_command ops fuel s fin, ?_,
    syncLoop_skip ops fuel s fin, rfl, rfl, rfl, rfl, rfl⟩
  · simp only [SlaveSession.Status, SlaveSession.Sync]
    split_ifs
    · exact (isSlaveOfGoRedis_frame ops _).1
    · rw [(syncLoop_frame ops fuel _ false).1]
      exact (isSlaveOfGoRedis_frame ops _).1
    · rw [(syncLoop_frame ops fuel _ false).1]
      exact (isSlaveOfGoRedis_frame ops _).1
  · intro h
    simp only [SlaveSession.Sync]
    rw [if_pos h]
  · intro h
    simp only [SlaveSession.syncLoop]
    rw [if_pos h]
  · intro h0 hc h
    simp only [SlaveSession.syncLoop]
    rw [if_neg (by simp [h0]), if_pos hc, if_neg h]
  · intro h0 hc hfin h
    subst hfin
    simp only [SlaveSession.syncLoop]
    rw [if_neg (by simp [h0]), if_neg (by simp [hc]), if_pos (by simp [hc]), if_pos h]
  · intro h0 hc hfin hl h
    subst hfin
    simp only [SlaveSession.syncLoop]
    rw [if_neg (by simp [h0]), if_neg (by simp [hc]), if_pos (by simp [hc]),
      if_neg (by simp [hl]), if_pos h]
  · intro h0 hc hd h
    simp only [SlaveSession.syncLoop]
    rw [if_neg (by simp [h0]), if_neg hc, if_neg (by simpa using hd), if_pos h]
  · intro h0 hc hfin hl hd
    subst hfin
    exact syncLoop_snapshot ops fuel s h0 hc hl hd

/-- C10 on a scripted peer that sends two filler bytes and then goes away: `Sync`
returns the error of the failed peek of the third iteration, the status is
`connecting`, and `Disconnect()` then sets it to `disconnected`. -/
theorem Sync_error_returned_witness :
    ((scriptedPeer "# Server redis_version:2.6" ['+', '+']).Sync scriptOps 7 "a1b2c3d4").1.Status
      = SSConnecting ∧
    ((scriptedPeer "# Server redis_version:2.6" []).syncLoop scriptOps 1 false).2
      = .returned (some "EOF") ∧
    ((scriptedPeer "# Server redis_version:2.6" ['+', '+']).Sync scriptOps 7 "a1b2c3d4").2
      = .returned (some "EOF") ∧
    (((scriptedPeer "# Server redis_version:2.6" ['+', '+']).Sync scriptOps 7
        "a1b2c3d4").1.Disconnect).1.Status = "disconnected" := by
  refine ⟨(Sync_error_returned scriptOps 7 (scriptedPeer "# Server redis_version:2.6" ['+', '+'])
      "a1b2c3d4" false).1,
    ((Sync_error_returned scriptOps 0 (scriptedPeer "# Server redis_version:2.6" [])
      "a1b2c3d4" false).2.2.1 (by decide)).trans (by decide), ?_, ?_⟩
  · rw [(Sync_error_returned scriptOps 7 (scriptedPeer "# Server redis_version:2.6" ['+', '+'])
      "a1b2c3d4" false).2.2.2.2.2.2.2.2.1 (by decide)]
    decide
  · rw [(Sync_error_returned scriptOps 7 (scriptedPeer "# Server redis_version:2.6" ['+', '+'])
      "a1b2c3d4" false).2.2.2.2.2.2.2.2.2.2.2.2.2.2.1]
    rfl

/-! ## The session: status, running count and exits of `Sync` -/

theorem didRecvCommand_status (s : SlaveSession σ) (cmd : Command) (b : Bool) :
    (s.didRecvCommand cmd b).status = s.status := rfl

/-- C11, as the code has it.  `Sync` sets the status to `connecting` on entry
and nothing changes it afterwards: at every point of the read loop `Status()`
is `connecting`, the callbacks of the snapshot decoder leave the status of the
session as it was, and so does the delivery of a command. -/
theorem Sync_status_stays_connecting (ops : SessionOps σ) (fuel : Nat) (s : SlaveSession σ)
    (uid : String) (evs : List RdbEvent) (cmd : Command) (isrdb : Bool) :
    (s.Sync ops fuel uid).1.Status = SSConnecting ∧
    ((newDecoder s).run evs).session.Status = s.Status ∧
    (s.didRecvCommand cmd isrdb).Status = s.Status ∧
    (s.Sync ops fuel uid).1.Status ≠ SSRdbRecving ∧
    (s.Sync ops fuel uid).1.Status ≠ SSCommandRecving := by
  have h1 : (s.Sync ops fuel uid).1.Status = SSConnecting := by
    simp only [SlaveSession.Status, SlaveSession.Sync]
    split_ifs
    · exact (isSlaveOfGoRedis_frame ops _).1
    · rw [(syncLoop_frame ops fuel _ false).1]
      exact (isSlaveOfGoRedis_frame ops _).1
    · rw [(syncLoop_frame ops fuel _ false).1]
      exact (isSlaveOfGoRedis_frame ops _).1
  refine ⟨h1, (run_frame evs (newDecoder s)).1, rfl, ?_, ?_⟩
  · rw [h1]; decide
  · rw [h1]; decide

/-- C11, the claim as written fails.  A live command frame has been parsed and
applied, and the status is `connecting`, not `commandrecving`; a snapshot has
been decoded to its end, and the status is `connecting` as well. -/
theorem Sync_status_not_commandrecving :
    ((scriptedStream "# Server redis_version:2.6" ['*'] [(["SET", "a", "1"], none)] [] []).Sync
        scriptOps 1 "a1b2c3d4").1.received = [⟨["SET", "a", "1"], 1, false⟩] ∧
    ((scriptedStream "# Server redis_version:2.6" ['*'] [(["SET", "a", "1"], none)] [] []).Sync
        scriptOps 1 "a1b2c3d4").1.Status = "connecting" ∧
    ((scriptedStream "# Server redis_version:2.6" ['*'] [(["SET", "a", "1"], none)] [] []).Sync
        scriptOps 1 "a1b2c3d4").1.Status ≠ SSCommandRecving ∧
    ((scriptedStream "# Server redis_version:2.6" ['$'] [] [(10, none)]
        [([.Set "a" "1" 0, .EndRDB], none)]).Sync scriptOps 1 "a1b2c3d4").1.finished = [1] ∧
    ((scriptedStream "# Server redis_version:2.6" ['$'] [] [(10, none)]
        [([.Set "a" "1" 0, .EndRDB], none)]).Sync scriptOps 1 "a1b2c3d4").1.Status
      ≠ SSCommandRecving := by
  refine ⟨by decide, by decide, by decide, by decide, by decide⟩

theorem Counted_new (sess : σ) (masterHost : String) :
    (NewSlaveSession sess masterHost).Counted := by
  simp [SlaveSession.Counted, NewSlaveSession]

theorem Counted_of_eq (s t : SlaveSession σ) (h1 : t.totalCount = s.totalCount)
    (h2 : t.received = s.received) (h : s.Counted) : t.Counted := by
  unfold SlaveSession.Counted at *
  rw [h1, h2]
  exact h

theorem Counted_didRecvCommand (s : SlaveSession σ) (h : s.Counted) (cmd : Command) (b : Bool) :
    (s.didRecvCommand cmd b).Counted := by
  obtain ⟨h1, h2⟩ := h
  constructor
  · rw [didRecvCommand_received]
    simp only [SlaveSession.didRecvCommand, List.length_append, List.length_cons,
      List.length_nil, h1]
    push_cast
    ring
  · rw [didRecvCommand_received]
    simp only [List.map_append, List.length_append, List.length_cons, List.length_nil,
      List.map_cons, List.map_nil, zero_add, List.range_succ, h2, h1]

/-- Every callback of the decoder keeps the count in step, and what it logs
is flagged as coming from the snapshot. -/
theorem handle_counted (p : rdbDecoder σ) (ev : RdbEvent) :
    (p.session.Counted → (p.handle ev).session.Counted) ∧
    ∃ extra, (p.handle ev).session.received = p.session.received ++ extra ∧
      ∀ r ∈ extra, r.isrdb = true := by
  have hsame : ∀ q : rdbDecoder σ, q.session = p.session →
      (p.session.Counted → q.session.Counted) ∧
      ∃ extra, q.session.received = p.session.received ++ extra ∧
        ∀ r ∈ extra, r.isrdb = true := by
    intro q hq
    rw [hq]
    exact ⟨id, [], by simp, by simp⟩
  have hone : ∀ (q : rdbDecoder σ) (cmd : Command),
      q.session = p.session.didRecvCommand cmd true →
      (p.session.Counted → q.session.Counted) ∧
      ∃ extra, q.session.received = p.session.received ++ extra ∧
        ∀ r ∈ extra, r.isrdb = true := by
    intro q cmd hq
    rw [hq]
    exact ⟨fun h => Counted_didRecvCommand _ h cmd true,
      [⟨cmd, p.session.totalCount + 1, true⟩], didRecvCommand_received _ _ _, by simp⟩
  cases ev with
  | StartDatabase n => exact hsame _ rfl
  | EndDatabase n => exact hsame _ rfl
  | EndRDB =>
    exact ⟨fun h => Counted_of_eq _ _ rfl rfl h, [], by
      simp [rdbDecoder.handle, rdbDecoder.EndRDB, SlaveSession.RdbFinished], by simp⟩
  | Set key value expiry => exact hone _ _ rfl
  | StartHash key length expiry =>
    simp only [rdbDecoder.handle, StartHash_eq]; exact hsame _ rfl
  | StartSet key cardinality expiry =>
    simp only [rdbDecoder.handle, StartSet_eq]; exact hsame _ rfl
  | StartList key length expiry =>
    simp only [rdbDecoder.handle, StartList_eq]; exact hsame _ rfl
  | StartZSet key cardinality expiry =>
    simp only [rdbDecoder.handle, StartZSet_eq]; exact hsame _ rfl
  | Hset key field value =>
    simp only [rdbDecoder.handle, Hset_eq]
    split_ifs
    · exact hone _ _ rfl
    · exact hsame _ rfl
  | Sadd key member =>
    simp only [rdbDecoder.handle, Sadd_eq]
    split_ifs
    · exact hone _ _ rfl
    · exact hsame _ rfl
  | Rpush key value =>
    simp only [rdbDecoder.handle, Rpush_eq]
    split_ifs
    · exact hone _ _ rfl
    · exact hsame _ rfl
  | Zadd key score member =>
    simp only [rdbDecoder.handle, Zadd_eq]
    split_ifs
    · exact hone _ _ rfl
    · exact hsame _ rfl
  | EndHash key =>
    simp only [rdbDecoder.handle, rdbDecoder.EndHash]
    split_ifs
    · exact hone _ _ rfl
    · exact hsame _ rfl
  | EndSet key =>
    simp only [rdbDecoder.handle, rdbDecoder.EndSet]
    split_ifs
    · exact hone _ _ rfl
    · exact hsame _ rfl
  | EndList key =>
    simp only [rdbDecoder.handle, rdbDecoder.EndList]
    split_ifs
    · exact hone _ _ rfl
    · exact hsame _ rfl
  | EndZSet key =>
    simp only [rdbDecoder.handle, rdbDecoder.EndZSet]
    split_ifs
    · exact hone _ _ rfl
    · exact hsame _ rfl

theorem run_counted (evs : List RdbEvent) :
    ∀ p : rdbDecoder σ, (p.session.Counted → (p.run evs).session.Counted) ∧
      ∃ extra, (p.run evs).session.received = p.session.received ++ extra ∧
        ∀ r ∈ extra, r.isrdb = true := by
  induction evs with
  | nil => intro p; exact ⟨id, [], by simp [run_nil], by simp⟩
  | cons ev evs ih =>
    intro p
    obtain ⟨c1, x1, e1, f1⟩ := handle_counted p ev
    obtain ⟨c2, x2, e2, f2⟩ := ih (p.handle ev)
    refine ⟨fun h => by rw [run_cons]; exact c2 (c1 h), x1 ++ x2,
      by rw [run_cons, e2, e1, List.append_assoc], ?_⟩
    intro r hr
    rcases List.mem_append.mp hr with h | h
    · exact f1 r h
    · exact f2 r h

theorem syncLoop_counted (ops : SessionOps σ) (fuel : Nat) :
    ∀ (s : SlaveSession σ) (fin : Bool), s.Counted → (s.syncLoop ops fuel fin).1.Counted := by
  induction fuel with
  | zero => intro s fin h; exact h
  | succ fuel ih =>
    intro s fin h
    simp only [SlaveSession.syncLoop]
    split_ifs
    · exact Counted_of_eq s _ rfl rfl h
    · exact ih _ _ (Counted_didRecvCommand _ (Counted_of_eq s _ rfl rfl h) _ _)
    · exact Counted_of_eq s _ rfl rfl h
    · exact Counted_of_eq s _ rfl rfl h
    · exact (run_counted _ _).1 (Counted_of_eq s _ rfl rfl h)
    · exact ih _ _ ((run_counted _ _).1 (Counted_of_eq s _ rfl rfl h))
    · exact Counted_of_eq s _ rfl rfl h
    · exact ih _ _ (Counted_of_eq s _ rfl rfl h)

theorem getRedisInfo_counts (ops : SessionOps σ) (s : SlaveSession σ) (sect : String) :
    (s.getRedisInfo ops sect).1.totalCount = s.totalCount ∧
    (s.getRedisInfo ops sect).1.received = s.received := by
  simp only [SlaveSession.getRedisInfo, SlaveSession.writeCommand, NewCommand]
  split_ifs
  · split <;> exact ⟨rfl, rfl⟩
  · exact ⟨rfl, rfl⟩

theorem isSlaveOfGoRedis_counts (ops : SessionOps σ) (s : SlaveSession σ) :
    (s.isSlaveOfGoRedis ops).1.totalCount = s.totalCount ∧
    (s.isSlaveOfGoRedis ops).1.received = s.received := by
  simp only [SlaveSession.isSlaveOfGoRedis]
  split_ifs <;> exact getRedisInfo_counts ops s "server"

theorem Sync_counted (ops : SessionOps σ) (fuel : Nat) (s : SlaveSession σ) (uid : String)
    (h : s.Counted) : (s.Sync ops fuel uid).1.Counted := by
  have hc := isSlaveOfGoRedis_counts ops ({ s with status := SSConnecting })
  have h1 : (({ s with status := SSConnecting } : SlaveSession σ).isSlaveOfGoRedis ops).1.Counted :=
    Counted_of_eq s _ hc.1 hc.2 h
  simp only [SlaveSession.Sync]
  split_ifs
  · exact h1
  · exact syncLoop_counted ops fuel _ _ (Counted_of_eq _ _ rfl rfl h1)
  · exact syncLoop_counted ops fuel _ _ (Counted_of_eq _ _ rfl rfl h1)

theorem syncs_counted (ops : SessionOps σ) (calls : List (Nat × String)) :
    ∀ s : SlaveSession σ, s.Counted → (s.syncs ops calls).Counted := by
  induction calls with
  | nil => intro s h; exact h
  | cons c calls ih =>
    intro s h
    exact ih _ (Sync_counted ops c.1 s c.2 h)

/-- C12.  For a session created by `NewSlaveSession`, over all the `Sync` calls
of its lifetime, the k-th call of `DidRecvCommand` carries the running count k
(the counts logged are 1, 2, 3, ..., and `totalCount` is their number); every
command logged by the callbacks of the decoder is flagged as coming from the
snapshot, and the command parsed from a `*` frame in the loop is logged with
the flag false and the next count. -/
theorem running_count_is_position (ops : SessionOps σ) (sess : σ) (masterHost : String)
    (calls : List (Nat × String)) (p : rdbDecoder σ) (evs : List RdbEvent)
    (s : SlaveSession σ) (fin : Bool) :
    (((NewSlaveSession sess masterHost).syncs ops calls).received.map Received.count
      = (List.range ((NewSlaveSession sess masterHost).syncs ops calls).received.length).map
          (fun (i : Nat) => (i : Int) + 1)) ∧
    ((NewSlaveSession sess masterHost).syncs ops calls).totalCount
      = ((NewSlaveSession sess masterHost).syncs ops calls).received.length ∧
    (∀ r ∈ (p.run evs).session.received.drop p.session.received.length, r.isrdb = true) ∧
    ((ops.PeekByte s.session).2.2 = none → (ops.PeekByte s.session).2.1 = '*' →
      (ops.ReadCommand (ops.PeekByte s.session).1).2.2 = none →
      (s.syncLoop ops 1 fin).1.received
        = s.received ++
            [⟨(ops.ReadCommand (ops.PeekByte s.session).1).2.1, s.totalCount + 1, false⟩]) := by
  have hc := syncs_counted ops calls _ (Counted_new sess masterHost)
  refine ⟨hc.2, hc.1, ?_, ?_⟩
  · obtain ⟨_, extra, e, hf⟩ := run_counted evs p
    rw [e, List.drop_left]
    exact hf
  · intro h0 hc2 h2
    simp only [SlaveSession.syncLoop]
    rw [if_neg (by simp [h0]), if_pos hc2, if_pos h2]
    rfl

/-- C12 on a scripted stream: a snapshot with the keys `a` and `b`, then the live
command `SET c 3`; the counts are 1, 2, 3 and the flags true, true, false. -/
theorem running_count_is_position_witness :
    ((NewSlaveSession (⟨[(⟨.string "# Server", "# Server"⟩, none)], ['$', '*'],
          [(["SET", "c", "3"], none)], [(20, none)],
          [([.Set "a" "1" 0, .Set "b" "2" 0, .EndRDB], none)]⟩ : Script) "master").syncs
        scriptOps [(2, "a1b2c3d4")]).received
      = [⟨["SET", "a", "1"], 1, true⟩, ⟨["SET", "b", "2"], 2, true⟩,
          ⟨["SET", "c", "3"], 3, false⟩] ∧
    ((NewSlaveSession (⟨[(⟨.string "# Server", "# Server"⟩, none)], ['$', '*'],
          [(["SET", "c", "3"], none)], [(20, none)],
          [([.Set "a" "1" 0, .Set "b" "2" 0, .EndRDB], none)]⟩ : Script) "master").syncs
        scriptOps [(2, "a1b2c3d4")]).totalCount = 3 := by
  refine ⟨by decide, ?_⟩
  rw [(running_count_is_position scriptOps _ "master" [(2, "a1b2c3d4")]
    (newDecoder (NewSlaveSession (⟨[], [], [], [], []⟩ : Script) "master")) []
    (NewSlaveSession (⟨[], [], [], [], []⟩ : Script) "master") false).2.1]
  decide

/-- Every exit from the read loop carries a non-nil error. -/
theorem syncLoop_returned (ops : SessionOps σ) (fuel : Nat) :
    ∀ (s : SlaveSession σ) (fin : Bool) (err : Option Error),
      (s.syncLoop ops fuel fin).2 = .returned err → err ≠ none := by
  induction fuel with
  | zero =>
    intro s fin err h
    simp [SlaveSession.syncLoop] at h
  | succ fuel ih =>
    intro s fin err h
    simp only [SlaveSession.syncLoop] at h
    split_ifs at h with h1 h2 h3 h4 h5 h6 h7
    · injection h with h; rw [← h]; exact h1
    · exact ih _ _ _ h
    · injection h with h; rw [← h]; exact h3
    · injection h with h; rw [← h]; exact h5
    · injection h with h; rw [← h]; exact h6
    · exact ih _ _ _ h
    · injection h with h; rw [← h]; exact h7
    · exact ih _ _ _ h

/-- C13.  If `Sync` returns, the error it returns is not nil: the early exit
after a failed peer check and every exit from the read loop carry the error
that caused them. -/
theorem Sync_never_returns_nil (ops : SessionOps σ) (fuel : Nat) (s : SlaveSession σ)
    (uid : String) (err : Option Error) (h : (s.Sync ops fuel uid).2 = .returned err) :
    err ≠ none := by
  simp only [SlaveSession.Sync] at h
  split_ifs at h with h1 h2
  · injection h with h; rw [← h]; exact h1
  · exact syncLoop_returned ops fuel _ _ _ h
  · exact syncLoop_returned ops fuel _ _ _ h

/-- C13 on a scripted peer that goes away after the handshake: `Sync` returns,
and what it returns is the error `EOF`. -/
theorem Sync_never_returns_nil_witness :
    ((scriptedPeer "# Server redis_version:2.6" ['+']).Sync scriptOps 3 "a1b2c3d4").2
      = .returned (some "EOF") ∧
    (some "EOF" : Option Error) ≠ none :=
  ⟨by decide,
    Sync_never_returns_nil scriptOps 3 (scriptedPeer "# Server redis_version:2.6" ['+'])
      "a1b2c3d4" (some "EOF") (by decide)⟩

/-- C18.  In the read loop, when the next byte is neither `*` nor a `$` seen
before any snapshot was consumed, the iteration makes one `ReadByte` on the
connection and nothing else: no command is delivered, `totalCount` and the
status are unchanged; and when that read succeeds the loop goes on from the
connection after it, with `readRdbFinish` as it was.  The flag is false when
`Sync` enters the loop, it is true after the iteration that decoded a
snapshot and no iteration sets it back; so a `$` that comes right after a
snapshot decoded in this call (state `t`, two iterations) is one of the bytes
dropped. -/
theorem skip_byte (ops : SessionOps σ) (fuel : Nat) (s : SlaveSession σ) (fin : Bool)
    (t : SlaveSession σ) (uid : String)
    (h0 : (ops.PeekByte s.session).2.2 = none)
    (hc : (ops.PeekByte s.session).2.1 ≠ '*')
    (hd : ¬ (fin = false ∧ (ops.PeekByte s.session).2.1 = '$')) :
    (s.syncLoop ops 1 fin).1
      = { s with session := (ops.ReadByte (ops.PeekByte s.session).1).1 } ∧
    (s.syncLoop ops 1 fin).1.received = s.received ∧
    (s.syncLoop ops 1 fin).1.totalCount = s.totalCount ∧
    (s.syncLoop ops 1 fin).1.status = s.status ∧
    (s.syncLoop ops 1 fin).1.finished = s.finished ∧
    ((ops.ReadByte (ops.PeekByte s.session).1).2.2 = none →
      s.syncLoop ops (fuel + 1) fin
        = ({ s with session := (ops.ReadByte (ops.PeekByte s.session).1).1 } :
            SlaveSession σ).syncLoop ops fuel fin) ∧
    ((({ t with status := SSConnecting } : SlaveSession σ).isSlaveOfGoRedis ops).2.2 = none →
      t.Sync ops fuel uid = (t.Sync ops 0 uid).1.syncLoop ops fuel false) ∧
    ((ops.PeekByte t.session).2.2 = none → (ops.PeekByte t.session).2.1 = '$' →
      (ops.ReadLineInteger (ops.ReadByte (ops.PeekByte t.session).1).1).2.2 = none →
      (ops.Decode (ops.ReadLineInteger (ops.ReadByte (ops.PeekByte t.session).1).1).1).2.2
        = none →
      t.syncLoop ops (fuel + 1) false
        = ((newDecoder ({ t with session :=
              (ops.Decode
                (ops.ReadLineInteger (ops.ReadByte (ops.PeekByte t.session).1).1).1).1 } :
              SlaveSession σ)).run
            (ops.Decode (ops.ReadLineInteger (ops.ReadByte (ops.PeekByte t.session).1).1).1).2.1
          ).session.syncLoop ops fuel true) ∧
    ((ops.PeekByte t.session).2.2 = none → (ops.PeekByte t.session).2.1 = '*' →
      (ops.ReadCommand (ops.PeekByte t.session).1).2.2 = none →
      t.syncLoop ops (fuel + 1) fin
        = (({ t with session := (ops.ReadCommand (ops.PeekByte t.session).1).1 } :
              SlaveSession σ).didRecvCommand
            (ops.ReadCommand (ops.PeekByte t.session).1).2.1 false).syncLoop ops fuel fin) ∧
    (∀ next : SlaveSession σ,
      next = ((newDecoder ({ t with session :=
              (ops.Decode
                (ops.ReadLineInteger (ops.ReadByte (ops.PeekByte t.session).1).1).1).1 } :
              SlaveSession σ)).run
            (ops.Decode (ops.ReadLineInteger (ops.ReadByte (ops.PeekByte t.session).1).1).1).2.1
          ).session →
      (ops.PeekByte t.session).2.2 = none → (ops.PeekByte t.session).2.1 = '$' →
      (ops.ReadLineInteger (ops.ReadByte (ops.PeekByte t.session).1).1).2.2 = none →
      (ops.Decode (ops.ReadLineInteger (ops.ReadByte (ops.PeekByte t.session).1).1).1).2.2
        = none →
      (ops.PeekByte next.session).2.2 = none → (ops.PeekByte next.session).2.1 = '$' →
      (t.syncLoop ops 2 false).1
          = { next with session := (ops.ReadByte (ops.PeekByte next.session).1).1 } ∧
        (t.syncLoop ops 2 false).1.received = next.received ∧
        (t.syncLoop ops 2 false).1.totalCount = next.totalCount ∧
        (t.syncLoop ops 2 false).1.status = next.status) := by
  have hone : ∀ (u : SlaveSession σ) (f : Bool), (ops.PeekByte u.session).2.2 = none →
      (ops.PeekByte u.session).2.1 ≠ '*' →
      ¬ (f = false ∧ (ops.PeekByte u.session).2.1 = '$') →
      (u.syncLoop ops 1 f).1
        = { u with session := (ops.ReadByte (ops.PeekByte u.session).1).1 } := by
    intro u f g0 gc gd
    simp only [SlaveSession.syncLoop]
    rw [if_neg (by simp [g0]), if_neg gc, if_neg (by simpa using gd)]
    split_ifs <;> rfl
  have h1 := hone s fin h0 hc hd
  refine ⟨h1, by rw [h1], by rw [h1], by rw [h1], by rw [h1],
    syncLoop_skip ops fuel s fin h0 hc hd, Sync_enters_loop ops fuel t uid,
    syncLoop_snapshot ops fuel t, syncLoop_command ops fuel t fin, ?_⟩
  intro next hnext g0 gc gl gd n0 nc
  have hstep : t.syncLoop ops 2 false = next.syncLoop ops 1 true := by
    rw [hnext]
    exact syncLoop_snapshot ops 1 t g0 gc gl gd
  have h2 := hone next true n0 (by rw [nc]; decide) (by simp)
  rw [hstep]
  exact ⟨h2, by rw [h2], by rw [h2], by rw [h2]⟩

/-- C18 on scripted streams: a filler byte `+` is dropped and the next byte is
the one that followed; and on the stream `$` (a snapshot), `$`, `*`, run from
the flag false, the snapshot is decoded, the second `$` is dropped without any
decoding, and the next byte is the `*`. -/
theorem skip_byte_witness :
    ((scriptedPeer "# Server" ['+', '*']).syncLoop scriptOps 1 false).1.session.bytes = ['*'] ∧
    ((scriptedPeer "# Server" ['+', '*']).syncLoop scriptOps 1 false).1.totalCount = 0 ∧
    ((scriptedStream "# Server" ['$', '$', '*'] [] [(10, none), (10, none)]
        [([.Set "a" "1" 0, .EndRDB], none), ([.Set "b" "2" 0, .EndRDB], none)]).syncLoop
        scriptOps 2 false).1.session.bytes = ['*'] ∧
    ((scriptedStream "# Server" ['$', '$', '*'] [] [(10, none), (10, none)]
        [([.Set "a" "1" 0, .EndRDB], none), ([.Set "b" "2" 0, .EndRDB], none)]).syncLoop
        scriptOps 2 false).1.received = [⟨["SET", "a", "1"], 1, true⟩] ∧
    ((scriptedStream "# Server" ['$', '$', '*'] [] [(10, none), (10, none)]
        [([.Set "a" "1" 0, .EndRDB], none), ([.Set "b" "2" 0, .EndRDB], none)]).syncLoop
        scriptOps 2 false).1.session.snapshots = [([.Set "b" "2" 0, .EndRDB], none)] := by
  have hs := skip_byte scriptOps 0 (scriptedPeer "# Server" ['+', '*']) false
    (scriptedStream "# Server" ['$', '$', '*'] [] [(10, none), (10, none)]
      [([.Set "a" "1" 0, .EndRDB], none), ([.Set "b" "2" 0, .EndRDB], none)]) "a1b2c3d4"
    (by decide) (by decide) (by decide)
  have hn := hs.2.2.2.2.2.2.2.2.2 _ rfl (by decide) (by decide) (by decide) (by decide)
    (by decide) (by decide)
  refine ⟨?_, ?_, ?_, ?_, ?_⟩
  · rw [hs.1]
    decide
  · rw [hs.2.2.1]
    decide
  · rw [hn.1]
    decide
  · rw [hn.2.1]
    decide
  · rw [hn.1]
    rfl

/-! ## The snapshot decoder: buffer capacity and trailing commands -/

/-- C19, the code at the failing input: for a sorted set of declared
cardinality 100000 `StartZSet` allocates a buffer of capacity 100000, far above
202, while `StartHash`, `StartSet` and `StartList` allocate 200 for the same
cardinality. -/
theorem zset_capacity_grows :
    (newDecoder (NewSlaveSession () "master")).StartZSet_cap 100000 = 100000 ∧
    ¬ ((newDecoder (NewSlaveSession () "master")).StartZSet_cap 100000 ≤ 202) ∧
    (newDecoder (NewSlaveSession () "master")).StartHash_cap 100000 = 200 ∧
    (newDecoder (NewSlaveSession () "master")).StartSet_cap 100000 = 200 ∧
    (newDecoder (NewSlaveSession () "master")).StartList_cap 100000 = 200 := by
  refine ⟨by decide, by decide, by decide, by decide, by decide⟩

theorem delivered_self (q : rdbDecoder σ) : delivered q q = [] := by
  simp [delivered]

theorem length_flatMap_scores (zs : List (ℚ × Bytes)) :
    (zs.flatMap (fun sm => [FormatInt (int64OfFloat64 sm.1), sm.2])).length = 2 * zs.length := by
  induction zs with
  | nil => rfl
  | cons sm zs ih =>
    simp only [List.flatMap_cons, List.length_append, List.length_cons, List.length_nil, ih]
    omega

/-- The decoder just before `EndHash`: full batches delivered, and the buffer
holding the name, the key and the remainder. -/
theorem hash_state (p : rdbDecoder σ) (hp : p.bufsize = 200) (key : Bytes) (length : Nat)
    (expiry : Int) (fs : List (Bytes × Bytes)) :
    ∃ cmds pay2,
      cmdsOf ((p.StartHash key length expiry).run
          (fs.map fun fv => RdbEvent.Hset key fv.1 fv.2)).session = cmdsOf p.session ++ cmds ∧
      ((p.StartHash key length expiry).run
          (fs.map fun fv => RdbEvent.Hset key fv.1 fv.2)).hashEntry = "HSET" :: key :: pay2 ∧
      pay2.length < 198 ∧ (∀ c ∈ cmds, c.length = 200 ∧ c.take 2 = ["HSET", key]) ∧
      cmds.flatMap (List.drop 2) ++ pay2 = fs.flatMap (fun fv => [fv.1, fv.2]) := by
  obtain ⟨cmds, pay2, e, a1, _, a3, a4⟩ :=
    batchFeed_foldl "HSET" key 2 (by norm_num) (fs.map fun fv => [fv.1, fv.2])
      (cmdsOf p.session) []
      (by intro g hg; obtain ⟨fv, _, rfl⟩ := List.mem_map.mp hg; rfl) (by simp) (by norm_num)
  have hrun := Hset_run key fs (p.StartHash key length expiry) (by rw [StartHash_eq]; exact hp)
  rw [show cmdsOf (p.StartHash key length expiry).session = cmdsOf p.session by
        rw [StartHash_eq],
      show (p.StartHash key length expiry).hashEntry = ["HSET", key] by rw [StartHash_eq],
      e] at hrun
  obtain ⟨h1, h2⟩ := Prod.mk.inj hrun
  exact ⟨cmds, pay2, h1, h2, a1, a3, by simpa [List.flatMap] using a4⟩

/-- The decoder just before `EndList`. -/
theorem list_state (p : rdbDecoder σ) (hp : p.bufsize = 200) (key : Bytes) (length : Nat)
    (expiry : Int) (vs : List Bytes) :
    ∃ cmds pay2,
      cmdsOf ((p.StartList key length expiry).run
          (vs.map fun v => RdbEvent.Rpush key v)).session = cmdsOf p.session ++ cmds ∧
      ((p.StartList key length expiry).run
          (vs.map fun v => RdbEvent.Rpush key v)).listEntry = "RPUSH" :: key :: pay2 ∧
      pay2.length < 198 ∧ (∀ c ∈ cmds, c.length = 200 ∧ c.take 2 = ["RPUSH", key]) ∧
      cmds.flatMap (List.drop 2) ++ pay2 = vs := by
  obtain ⟨cmds, pay2, e, a1, _, a3, a4⟩ :=
    batchFeed_foldl "RPUSH" key 1 (by norm_num) (vs.map fun v => [v])
      (cmdsOf p.session) []
      (by intro g hg; obtain ⟨v, _, rfl⟩ := List.mem_map.mp hg; rfl) (by simp) (by norm_num)
  have hrun := Rpush_run key vs (p.StartList key length expiry) (by rw [StartList_eq]; exact hp)
  rw [show cmdsOf (p.StartList key length expiry).session = cmdsOf p.session by
        rw [StartList_eq],
      show (p.StartList key length expiry).listEntry = ["RPUSH", key] by rw [StartList_eq],
      e] at hrun
  obtain ⟨h1, h2⟩ := Prod.mk.inj hrun
  exact ⟨cmds, pay2, h1, h2, a1, a3, by rw [a4, List.nil_append, flatten_singletons]⟩

/-- The decoder just before `EndZSet`. -/
theorem zset_state (p : rdbDecoder σ) (hp : p.bufsize = 200) (key : Bytes) (cardinality : Nat)
    (expiry : Int) (zs : List (ℚ × Bytes)) :
    ∃ cmds pay2,
      cmdsOf ((p.StartZSet key cardinality expiry).run
          (zs.map fun sm => RdbEvent.Zadd key sm.1 sm.2)).session = cmdsOf p.session ++ cmds ∧
      ((p.StartZSet key cardinality expiry).run
          (zs.map fun sm => RdbEvent.Zadd key sm.1 sm.2)).zsetEntry = "ZADD" :: key :: pay2 ∧
      pay2.length < 198 ∧ (∀ c ∈ cmds, c.length = 200 ∧ c.take 2 = ["ZADD", key]) ∧
      cmds.flatMap (List.drop 2) ++ pay2
        = zs.flatMap (fun sm => [FormatInt (int64OfFloat64 sm.1), sm.2]) := by
  obtain ⟨cmds, pay2, e, a1, _, a3, a4⟩ :=
    batchFeed_foldl "ZADD" key 2 (by norm_num)
      (zs.map fun sm => [FormatInt (int64OfFloat64 sm.1), sm.2])
      (cmdsOf p.session) []
      (by intro g hg; obtain ⟨sm, _, rfl⟩ := List.mem_map.mp hg; rfl) (by simp) (by norm_num)
  have hrun := Zadd_run key zs (p.StartZSet key cardinality expiry)
    (by rw [StartZSet_eq]; exact hp)
  rw [show cmdsOf (p.StartZSet key cardinality expiry).session = cmdsOf p.session by
        rw [StartZSet_eq],
      show (p.StartZSet key cardinality expiry).zsetEntry = ["ZADD", key] by rw [StartZSet_eq],
      e] at hrun
  obtain ⟨h1, h2⟩ := Prod.mk.inj hrun
  exact ⟨cmds, pay2, h1, h2, a1, a3, by simpa [List.flatMap] using a4⟩

/-- A command of an entry has a payload, and the payload of a pair-filled
entry is even, given the total payload `total` of the entry. -/
theorem batch_payload (name key : Bytes) (cmds : List Command) (pay2 : List Bytes)
    (h3 : ∀ c ∈ cmds, c.length = 200 ∧ c.take 2 = [name, key]) :
    (∀ c ∈ cmds ++ (if 0 < pay2.length then [name :: key :: pay2] else []), 2 < c.length) ∧
    (pay2.length % 2 = 0 →
      ∀ c ∈ cmds ++ (if 0 < pay2.length then [name :: key :: pay2] else []),
        (c.length - 2) % 2 = 0) := by
  constructor
  · intro c hc
    rcases List.mem_append.mp hc with hc | hc
    · rw [(h3 c hc).1]; omega
    · split_ifs at hc with hp
      · rw [List.mem_singleton] at hc
        subst hc
        simp only [List.length_cons]
        omega
      · simp at hc
  · intro hev c hc
    rcases List.mem_append.mp hc with hc | hc
    · rw [(h3 c hc).1]
    · split_ifs at hc with hp
      · rw [List.mem_singleton] at hc
        subst hc
        simp only [List.length_cons]
        omega
      · simp at hc

/-- C20.  Every command delivered for a hash, a list or a sorted set carries at
least one payload element after the name and the key, and for a hash and a
sorted set the payload has an even number of elements.  When the members
exactly fill the full batches (99 pairs each for a hash or a sorted set, 198
values for a list), and so in particular when there is no member, the `End*`
call delivers no command. -/
theorem no_empty_or_half_command (s : SlaveSession σ) (evs : List RdbEvent) (key : Bytes)
    (n : Nat) (expiry : Int) (fs : List (Bytes × Bytes)) (vs : List Bytes)
    (zs : List (ℚ × Bytes)) :
    (∀ c ∈ delivered ((newDecoder s).run evs)
        (decodeHash ((newDecoder s).run evs) key n expiry fs),
      2 < c.length ∧ (c.length - 2) % 2 = 0) ∧
    (∀ c ∈ delivered ((newDecoder s).run evs)
        (decodeList ((newDecoder s).run evs) key n expiry vs), 2 < c.length) ∧
    (∀ c ∈ delivered ((newDecoder s).run evs)
        (decodeZSet ((newDecoder s).run evs) key n expiry zs),
      2 < c.length ∧ (c.length - 2) % 2 = 0) ∧
    (fs.length % 99 = 0 →
      delivered
        ((((newDecoder s).run evs).StartHash key n expiry).run
          (fs.map fun fv => RdbEvent.Hset key fv.1 fv.2))
        (decodeHash ((newDecoder s).run evs) key n expiry fs) = []) ∧
    (vs.length % 198 = 0 →
      delivered
        ((((newDecoder s).run evs).StartList key n expiry).run
          (vs.map fun v => RdbEvent.Rpush key v))
        (decodeList ((newDecoder s).run evs) key n expiry vs) = []) ∧
    (zs.length % 99 = 0 →
      delivered
        ((((newDecoder s).run evs).StartZSet key n expiry).run
          (zs.map fun sm => RdbEvent.Zadd key sm.1 sm.2))
        (decodeZSet ((newDecoder s).run evs) key n expiry zs) = []) := by
  have hp := run_bufsize s evs
  refine ⟨?_, ?_, ?_, ?_, ?_, ?_⟩
  · obtain ⟨cmds, pay2, e, a1, a3, a4⟩ := hash_delivered _ hp key n expiry fs
    have hlen := congrArg List.length a4
    rw [List.length_append, length_flatMap_drop cmds (fun c hc => (a3 c hc).1),
      length_flatMap_pairs] at hlen
    have hb := batch_payload "HSET" key cmds pay2 a3
    unfold decodeHash
    rw [e]
    exact fun c hc => ⟨hb.1 c hc, hb.2 (by omega) c hc⟩
  · obtain ⟨cmds, pay2, e, a1, a3, a4⟩ := list_delivered _ hp key n expiry vs
    have hb := batch_payload "RPUSH" key cmds pay2 a3
    unfold decodeList
    rw [e]
    exact fun c hc => hb.1 c hc
  · obtain ⟨cmds, pay2, e, a1, a3, a4⟩ := zset_delivered _ hp key n expiry zs
    have hlen := congrArg List.length a4
    rw [List.length_append, length_flatMap_drop cmds (fun c hc => (a3 c hc).1),
      length_flatMap_scores] at hlen
    have hb := batch_payload "ZADD" key cmds pay2 a3
    unfold decodeZSet
    rw [e]
    exact fun c hc => ⟨hb.1 c hc, hb.2 (by omega) c hc⟩
  · intro h0
    obtain ⟨cmds, pay2, _, h2, a1, a3, a4⟩ := hash_state _ hp key n expiry fs
    have hlen := congrArg List.length a4
    rw [List.length_append, length_flatMap_drop cmds (fun c hc => (a3 c hc).1),
      length_flatMap_pairs] at hlen
    have hz : pay2.length = 0 := by omega
    unfold decodeHash rdbDecoder.EndHash
    rw [h2, if_neg (by simp only [List.length_cons]; omega)]
    exact delivered_self _
  · intro h0
    obtain ⟨cmds, pay2, _, h2, a1, a3, a4⟩ := list_state _ hp key n expiry vs
    have hlen := congrArg List.length a4
    rw [List.length_append, length_flatMap_drop cmds (fun c hc => (a3 c hc).1)] at hlen
    have hz : pay2.length = 0 := by omega
    unfold decodeList rdbDecoder.EndList
    rw [h2, if_neg (by simp only [List.length_cons]; omega)]
    exact delivered_self _
  · intro h0
    obtain ⟨cmds, pay2, _, h2, a1, a3, a4⟩ := zset_state _ hp key n expiry zs
    have hlen := congrArg List.length a4
    rw [List.length_append, length_flatMap_drop cmds (fun c hc => (a3 c hc).1),
      length_flatMap_scores] at hlen
    have hz : pay2.length = 0 := by omega
    unfold decodeZSet rdbDecoder.EndZSet
    rw [h2, if_neg (by simp only [List.length_cons]; omega)]
    exact delivered_self _

/-- C20 on entries without members and on a list of 198 values: nothing is
delivered for the empty hash, and `EndList` adds nothing after the one full
batch. -/
theorem no_empty_or_half_command_witness :
    delivered (newDecoder (NewSlaveSession () "master"))
      (decodeHash (newDecoder (NewSlaveSession () "master")) "k" 0 0 []) = [] ∧
    delivered
      (((newDecoder (NewSlaveSession () "master")).StartList "k" 198 0).run
        ((List.replicate 198 "v").map fun v => RdbEvent.Rpush "k" v))
      (decodeList (newDecoder (NewSlaveSession () "master")) "k" 198 0
        (List.replicate 198 "v")) = [] :=
  ⟨(no_empty_or_half_command (NewSlaveSession () "master") [] "k" 0 0 [] [] []).2.2.2.1
      (by decide),
    (no_empty_or_half_command (NewSlaveSession () "master") [] "k" 198 0 []
      (List.replicate 198 "v") []).2.2.2.2.1 (by rw [List.length_replicate])⟩

/-! ## The server: fan-out, counters and the uid -/

theorem mapHas_mapSet (m : List (String × Bool)) (k k2 : String) (v : Bool) :
    mapHas (mapSet m k v) k2 = true ↔ k2 = k ∨ mapHas m k2 = true := by
  simp only [mapHas, mapSet, List.any_cons, Bool.or_eq_true, beq_iff_eq, List.any_eq_true,
    List.mem_filter, decide_eq_true_eq]
  constructor
  · rintro (h | ⟨kv, ⟨hm, _⟩, hk⟩)
    · exact Or.inl h.symm
    · exact Or.inr ⟨kv, hm, hk⟩
  · rintro (h | ⟨kv, hm, hk⟩)
    · exact Or.inl h.symm
    · by_cases hkk : k2 = k
      · exact Or.inl hkk.symm
      · exact Or.inr ⟨kv, ⟨hm, by rw [hk]; exact hkk⟩, hk⟩

theorem table_fold (up : String → String) (names : List String) :
    ∀ (server : GoRedisServer τ) (k : String),
      mapHas (names.foldl
        (fun server cmd =>
          { server with needSyncCmdTable := mapSet server.needSyncCmdTable (up cmd) true })
        server).needSyncCmdTable k = true
      ↔ mapHas server.needSyncCmdTable k = true ∨ k ∈ names.map up := by
  induction names with
  | nil => intro server k; simp
  | cons n names ih =>
    intro server k
    rw [List.foldl_cons, ih, mapHas_mapSet]
    simp only [List.map_cons, List.mem_cons]
    tauto

theorem table_fold_frame (up : String → String) (names : List String) :
    ∀ (server : GoRedisServer τ),
      (names.foldl
        (fun server cmd =>
          { server with needSyncCmdTable := mapSet server.needSyncCmdTable (up cmd) true })
        server).asyncSent = server.asyncSent := by
  induction names with
  | nil => intro server; rfl
  | cons n names ih => intro server; rw [List.foldl_cons, ih]

/-- The table built by `NewGoRedisServer` holds the upper-cased names of
`needSyncCmds`. -/
theorem NewGoRedisServer_table (up : String → String) (directory : String) (k : String) :
    mapHas (NewGoRedisServer up directory : GoRedisServer τ).needSyncCmdTable k = true
      ↔ k ∈ needSyncCmds.map up := by
  unfold NewGoRedisServer
  rw [table_fold]
  simp [mapHas]

theorem fanout_fold (cmd : Command) (sessions : List τ) :
    ∀ server : GoRedisServer τ,
      (sessions.foldl (fun server e => server.AsyncSendCommand e cmd) server).asyncSent
        = server.asyncSent ++ sessions.map (fun e => (e, cmd)) ∧
      (sessions.foldl (fun server e => server.AsyncSendCommand e cmd) server).cmdCounters
        = server.cmdCounters ∧
      (sessions.foldl (fun server e => server.AsyncSendCommand e cmd) server).syncCounters
        = server.syncCounters := by
  induction sessions with
  | nil => intro server; simp
  | cons e sessions ih =>
    intro server
    rw [List.foldl_cons]
    obtain ⟨h1, h2, h3⟩ := ih (server.AsyncSendCommand e cmd)
    refine ⟨?_, h2, h3⟩
    rw [h1]
    simp [GoRedisServer.AsyncSendCommand]

/-- What `On` submits: the command to every session of the list, in order, when
the upper-cased name is in the table, and nothing otherwise. -/
theorem On_asyncSent (up : String → String) (server : GoRedisServer τ) (cmd : Command) :
    (server.On up cmd).asyncSent
      = server.asyncSent ++
          (if mapHas server.needSyncCmdTable (up (Command.Name cmd)) = true
            then server.slavelist.map (fun e => (e, cmd)) else []) := by
  simp only [GoRedisServer.On]
  split_ifs
  · rw [(fanout_fold cmd server.slavelist _).1]
  · simp

/-- What `On` does to the counters: one is added under the upper-cased name,
then one under `TOTAL`. -/
theorem On_cmdCounters (up : String → String) (server : GoRedisServer τ) (cmd : Command) :
    (server.On up cmd).cmdCounters
      = countersIncr (countersIncr server.cmdCounters (up (Command.Name cmd)) 1) "TOTAL" 1 ∧
    (server.On up cmd).syncCounters = server.syncCounters := by
  simp only [GoRedisServer.On]
  split_ifs
  · exact ⟨(fanout_fold cmd server.slavelist _).2.1, (fanout_fold cmd server.slavelist _).2.2⟩
  · exact ⟨rfl, rfl⟩

/-- C14.  With the table built by `NewGoRedisServer` and any list of registered
slave sessions, `On` submits the command exactly once to each session of the
list, in list order, if the upper-cased name of the command is one of the 21
names of `needSyncCmds`, and to no session otherwise.  (`up`, the upper-casing
function, leaves the 21 names as they are.) -/
theorem On_fans_out (up : String → String) (hup : ∀ n ∈ needSyncCmds, up n = n)
    (directory : String) (sessions : List τ) (cmd : Command) :
    (({ (NewGoRedisServer up directory : GoRedisServer τ) with slavelist := sessions }).On
        up cmd).asyncSent
      = if up (Command.Name cmd) ∈ needSyncCmds then sessions.map (fun e => (e, cmd))
        else [] := by
  have hmap : needSyncCmds.map up = needSyncCmds := by
    conv_rhs => rw [← List.map_id needSyncCmds]
    exact List.map_congr_left (fun n hn => by rw [hup n hn]; rfl)
  have htab := NewGoRedisServer_table (τ := τ) up directory (up (Command.Name cmd))
  rw [hmap] at htab
  have hsent : (NewGoRedisServer up directory : GoRedisServer τ).asyncSent = [] := by
    unfold NewGoRedisServer
    rw [table_fold_frame]
  rw [On_asyncSent]
  simp only [hsent, List.nil_append]
  by_cases hin : up (Command.Name cmd) ∈ needSyncCmds
  · rw [if_pos hin, if_pos (htab.mpr hin)]
  · rw [if_neg hin, if_neg (fun h => hin (htab.mp h))]

/-- C14 with three sessions: `SET a 1` and `set a 1` each reach the three
sessions once, in order, and `GET a` reaches none. -/
theorem On_fans_out_witness :
    (∀ n ∈ needSyncCmds, asciiUpper n = n) ∧
    (({ (NewGoRedisServer asciiUpper "/data" : GoRedisServer Nat) with
          slavelist := [1, 2, 3] }).On asciiUpper ["SET", "a", "1"]).asyncSent
      = [(1, ["SET", "a", "1"]), (2, ["SET", "a", "1"]), (3, ["SET", "a", "1"])] ∧
    (({ (NewGoRedisServer asciiUpper "/data" : GoRedisServer Nat) with
          slavelist := [1, 2, 3] }).On asciiUpper ["set", "a", "1"]).asyncSent
      = [(1, ["set", "a", "1"]), (2, ["set", "a", "1"]), (3, ["set", "a", "1"])] ∧
    (({ (NewGoRedisServer asciiUpper "/data" : GoRedisServer Nat) with
          slavelist := [1, 2, 3] }).On asciiUpper ["GET", "a"]).asyncSent = [] := by
  have hup : ∀ n ∈ needSyncCmds, asciiUpper n = n := by decide
  refine ⟨hup, ?_, ?_, ?_⟩
  · rw [On_fans_out asciiUpper hup "/data" [1, 2, 3] ["SET", "a", "1"]]
    decide
  · rw [On_fans_out asciiUpper hup "/data" [1, 2, 3] ["set", "a", "1"]]
    decide
  · rw [On_fans_out asciiUpper hup "/data" [1, 2, 3] ["GET", "a"]]
    decide

/-- The `TOTAL` counter after a run of commands none of which is named `TOTAL`. -/
theorem onAll_total (up : String → String) (cmds : List Command) :
    ∀ server : GoRedisServer τ, (∀ c ∈ cmds, up (Command.Name c) ≠ "TOTAL") →
      (server.onAll up cmds).cmdCounters "TOTAL" = server.cmdCounters "TOTAL" + cmds.length := by
  induction cmds with
  | nil => intro server _; simp [GoRedisServer.onAll]
  | cons c cmds ih =>
    intro server h
    have hc := h c (List.mem_cons_self _ _)
    have hstep : (server.On up c).cmdCounters "TOTAL" = server.cmdCounters "TOTAL" + 1 := by
      rw [(On_cmdCounters up server c).1]
      simp only [countersIncr, if_true]
      rw [if_neg (fun e => hc e.symm)]
    have := ih (server.On up c) (fun c2 h2 => h c2 (List.mem_cons_of_mem _ h2))
    simp only [GoRedisServer.onAll, List.foldl_cons] at this ⊢
    rw [this, hstep, List.length_cons]
    push_cast
    ring

/-- C15, as the code has it.  For a command whose upper-cased name is not
`TOTAL`, `On` adds exactly one to the `TOTAL` counter and exactly one to the
counter under the upper-cased name, and changes no other counter; after n such
commands `TOTAL` has grown by exactly n. -/
theorem On_counts_command (up : String → String) (server : GoRedisServer τ) (cmd : Command)
    (cmds : List Command) (h : up (Command.Name cmd) ≠ "TOTAL")
    (hall : ∀ c ∈ cmds, up (Command.Name c) ≠ "TOTAL") :
    (server.On up cmd).cmdCounters "TOTAL" = server.cmdCounters "TOTAL" + 1 ∧
    (server.On up cmd).cmdCounters (up (Command.Name cmd))
      = server.cmdCounters (up (Command.Name cmd)) + 1 ∧
    (∀ k, k ≠ "TOTAL" → k ≠ up (Command.Name cmd) →
      (server.On up cmd).cmdCounters k = server.cmdCounters k) ∧
    (server.On up cmd).syncCounters = server.syncCounters ∧
    (server.onAll up cmds).cmdCounters "TOTAL" = server.cmdCounters "TOTAL" + cmds.length := by
  obtain ⟨hc, hs⟩ := On_cmdCounters up server cmd
  refine ⟨?_, ?_, ?_, hs, onAll_total up cmds server hall⟩
  · rw [hc]
    simp only [countersIncr, if_true]
    rw [if_neg (fun e => h e.symm)]
  · rw [hc]
    simp only [countersIncr, if_true]
    rw [if_neg h]
  · intro k h1 h2
    rw [hc]
    simp only [countersIncr]
    rw [if_neg h1, if_neg h2]

/-- C15 on `GET a`, then on the commands `SET a 1`, `GET a`, `DEL a`. -/
theorem On_counts_command_witness :
    asciiUpper (Command.Name ["get", "a"]) ≠ "TOTAL" ∧
    ((NewGoRedisServer asciiUpper "/data" : GoRedisServer Nat).On asciiUpper
        ["get", "a"]).cmdCounters "GET" = 1 ∧
    ((NewGoRedisServer asciiUpper "/data" : GoRedisServer Nat).onAll asciiUpper
        [["SET", "a", "1"], ["GET", "a"], ["DEL", "a"]]).cmdCounters "TOTAL" = 3 := by
  have h1 : asciiUpper (Command.Name ["get", "a"]) ≠ "TOTAL" := by decide
  have hall : ∀ c ∈ [["SET", "a", "1"], ["GET", "a"], ["DEL", "a"]],
      asciiUpper (Command.Name c) ≠ "TOTAL" := by decide
  have h := On_counts_command asciiUpper (NewGoRedisServer asciiUpper "/data" : GoRedisServer Nat)
    ["get", "a"] [["SET", "a", "1"], ["GET", "a"], ["DEL", "a"]] h1 hall
  have hz : ∀ k, (NewGoRedisServer asciiUpper "/data" : GoRedisServer Nat).cmdCounters k = 0 := by
    intro k
    rfl
  refine ⟨h1, ?_, ?_⟩
  · have h2 := h.2.1
    rw [hz] at h2
    exact h2
  · rw [h.2.2.2.2, hz]
    rfl

/-- C15, the claim as written fails: for the command `total` the counter under
the upper-cased name is the `TOTAL` counter itself, and `On` raises it by 2. -/
theorem On_total_counted_twice :
    ((NewGoRedisServer asciiUpper "/data" : GoRedisServer Nat).On asciiUpper
        ["total"]).cmdCounters "TOTAL"
      = (NewGoRedisServer asciiUpper "/data" : GoRedisServer Nat).cmdCounters "TOTAL" + 2 ∧
    ((NewGoRedisServer asciiUpper "/data" : GoRedisServer Nat).On asciiUpper
        ["total"]).cmdCounters "TOTAL"
      ≠ (NewGoRedisServer asciiUpper "/data" : GoRedisServer Nat).cmdCounters "TOTAL" + 1 := by
  have hn : asciiUpper (Command.Name ["total"]) = "TOTAL" := by decide
  have hz : (NewGoRedisServer asciiUpper "/data" : GoRedisServer Nat).cmdCounters "TOTAL" = 0 :=
    rfl
  have h2 : ((NewGoRedisServer asciiUpper "/data" : GoRedisServer Nat).On asciiUpper
      ["total"]).cmdCounters "TOTAL" = 2 := by
    rw [(On_cmdCounters asciiUpper _ ["total"]).1, hn]
    simp only [countersIncr, if_true, hz]
    rfl
  rw [h2, hz]
  exact ⟨by decide, by decide⟩

/-- C16.  With the dispatcher of the specification in front of the hook, a
command whose handler produced an Error reply is submitted to no slave session,
whatever its name (so also when the name is in the table of replicated
commands): the log of `AsyncSendCommand` calls and the datasource are as
before, and the Error reply goes back to the caller.  The
same command, had its handler accepted it, is handed to `On`, which submits it
to every session of the list when its upper-cased name is in the table. -/
theorem failed_command_not_fanned_out (up : String → String) (server : GoRedisServer τ)
    (handler accepting : Option DataSource → Command → Option DataSource × HandlerReply)
    (cmd : Command) (msg : String) (ok : String)
    (herr : (handler server.datasource cmd).2 = .Error msg)
    (hacc : (accepting server.datasource cmd).2 = .Status ok) :
    (server.dispatch up handler cmd).1.asyncSent = server.asyncSent ∧
    (server.dispatch up handler cmd).1.datasource = server.datasource ∧
    (server.dispatch up handler cmd).2 = .Error msg ∧
    (server.dispatch up accepting cmd).1.asyncSent
      = server.asyncSent ++
          (if mapHas server.needSyncCmdTable (up (Command.Name cmd)) = true
            then server.slavelist.map (fun e => (e, cmd)) else []) := by
  refine ⟨?_, ?_, ?_, ?_⟩
  · simp only [GoRedisServer.dispatch, herr]
  · simp only [GoRedisServer.dispatch, herr]
  · simp only [GoRedisServer.dispatch, herr]
  · simp only [GoRedisServer.dispatch, hacc]
    rw [On_asyncSent]

/-- C16 on `INCR counter` with three registered sessions: when `counter` holds a
list the handler answers with the wrong-kind error and no session is sent the
command, although `INCR` is in the table; when `counter` is absent the handler
accepts the command and the three sessions are sent it. -/
theorem failed_command_not_fanned_out_witness :
    (incrOnWrongKind (some listAtCounter) ["INCR", "counter"]).2 = .Error "Wrong kind opration" ∧
    mapHas (NewGoRedisServer asciiUpper "/data" : GoRedisServer Nat).needSyncCmdTable
      (asciiUpper (Command.Name ["INCR", "counter"])) = true ∧
    (({ (NewGoRedisServer asciiUpper "/data" : GoRedisServer Nat) with
          slavelist := [7, 8, 9], datasource := some listAtCounter }).dispatch asciiUpper
        incrOnWrongKind ["INCR", "counter"]).1.asyncSent = [] ∧
    (({ (NewGoRedisServer asciiUpper "/data" : GoRedisServer Nat) with
          slavelist := [7, 8, 9], datasource := some listAtCounter }).dispatch asciiUpper
        (fun ds _ => (ds, .Status "OK")) ["INCR", "counter"]).1.asyncSent
      = [(7, ["INCR", "counter"]), (8, ["INCR", "counter"]), (9, ["INCR", "counter"])] := by
  have h := failed_command_not_fanned_out asciiUpper
    ({ (NewGoRedisServer asciiUpper "/data" : GoRedisServer Nat) with
        slavelist := [7, 8, 9], datasource := some listAtCounter })
    incrOnWrongKind (fun ds _ => (ds, .Status "OK")) ["INCR", "counter"]
    "Wrong kind opration" "OK" rfl rfl
  refine ⟨rfl, by decide, ?_, ?_⟩
  · rw [h.1]
    rfl
  · rw [h.2.2.2]
    decide

/-- C17.  On a server whose uid is not cached yet and whose datasource holds
under `__goredis:uid` nothing or a string entry, `UID()` returns a value `v`;
a second call returns `v` again and leaves the server as the first call left
it, so it writes nothing and generates nothing; after the first call the
datasource holds the string entry `v` under the key; and when the key already
held a string entry, `v` is the stored string, no identifier is generated and
nothing is written. -/
theorem UID_generated_once (uuid : Nat → Nat → String) (server : GoRedisServer τ)
    (ds : DataSource) (hds : server.datasource = some ds) (huid : server.uid = "")
    (hkey : ds.Get "__goredis:uid" = none ∨ ∃ v0, ds.Get "__goredis:uid" = some (.string v0)) :
    ∃ s1 v,
      server.UID uuid = some (s1, v) ∧
      s1.UID uuid = some (s1, v) ∧
      (∃ ds1, s1.datasource = some ds1 ∧ ds1.Get "__goredis:uid" = some (.string v)) ∧
      (∀ v0, ds.Get "__goredis:uid" = some (.string v0) →
        v = v0 ∧ s1.uuidCalls = server.uuidCalls ∧ s1.datasource = server.datasource ∧
        s1.stored = server.stored) := by
  have hlen : server.uid.length = 0 := by rw [huid]; rfl
  rcases hkey with hnone | ⟨v0, hsome⟩
  · refine ⟨{ server with
        uid := uuid server.uuidCalls 8
        uuidCalls := server.uuidCalls + 1
        datasource := some (ds.Set "__goredis:uid" (.string (uuid server.uuidCalls 8)))
        stored := server.stored ++ [("__goredis:uid", .string (uuid server.uuidCalls 8))] },
      uuid server.uuidCalls 8, ?_, ?_, ?_, ?_⟩
    · simp only [GoRedisServer.UID, hlen, if_true, hds, hnone]
    · by_cases hv : (uuid server.uuidCalls 8).length = 0
      · simp only [GoRedisServer.UID, hv, if_true, DataSource.Get, DataSource.Set]
      · simp only [GoRedisServer.UID, hv, if_false]
    · exact ⟨_, rfl, by simp [DataSource.Get, DataSource.Set]⟩
    · intro v0 h0
      rw [hnone] at h0
      exact absurd h0 (by simp)
  · refine ⟨{ server with uid := v0 }, v0, ?_, ?_, ?_, ?_⟩
    · simp only [GoRedisServer.UID, hlen, if_true, hds, hsome]
    · by_cases hv : v0.length = 0
      · simp only [GoRedisServer.UID, hv, if_true, hds, hsome]
      · simp only [GoRedisServer.UID, hv, if_false]
    · exact ⟨ds, hds, hsome⟩
    · intro v1 h1
      rw [hsome] at h1
      injection h1 with h1
      injection h1 with h1
      exact ⟨h1, rfl, rfl, rfl⟩

/-- C17 on a fresh server with an empty datasource: the first call generates
`a1b2c3d4` and stores it, the second call returns it again. -/
theorem UID_generated_once_witness :
    ∃ s1 : GoRedisServer Nat,
      ({ (NewGoRedisServer asciiUpper "/data" : GoRedisServer Nat) with
          datasource := some (fun _ => none) }).UID (fun _ _ => "a1b2c3d4")
        = some (s1, "a1b2c3d4") ∧
      s1.UID (fun _ _ => "a1b2c3d4") = some (s1, "a1b2c3d4") ∧
      s1.stored = [("__goredis:uid", .string "a1b2c3d4")] ∧ s1.uuidCalls = 1 := by
  obtain ⟨s1, v, h1, h2, _, _⟩ := UID_generated_once (fun _ _ => "a1b2c3d4")
    ({ (NewGoRedisServer asciiUpper "/data" : GoRedisServer Nat) with
        datasource := some (fun _ => none) })
    (fun _ => none) rfl rfl (Or.inl rfl)
  have hcalc : ({ (NewGoRedisServer asciiUpper "/data" : GoRedisServer Nat) with
      datasource := some (fun _ => none) }).UID (fun _ _ => "a1b2c3d4")
      = some ({ (NewGoRedisServer asciiUpper "/data" : GoRedisServer Nat) with
          uid := "a1b2c3d4"
          uuidCalls := 1
          datasource := some (DataSource.Set (fun _ => none) "__goredis:uid" (.string "a1b2c3d4"))
          stored := [("__goredis:uid", .string "a1b2c3d4")] }, "a1b2c3d4") := rfl
  rw [hcalc] at h1
  injection h1 with h1
  injection h1 with hs hv
  subst hs
  subst hv
  exact ⟨_, hcalc, h2, rfl, rfl⟩

end GoRedis
